import Mathlib

/-!
Verification development for the lcls-daq-browser error-exploration engine.

The Go sources (filter.go, model.go, the navigation/update file and the
database layer) are shallowly embedded below.  Go strings are modelled as
lists of characters (`GoStr`); for valid UTF-8 input, Go's byte-wise
lexicographic string comparison agrees with code-point-wise comparison,
which is what `goStrLt` implements.  Go's `strings.ToLower` is modelled by
`Char.toLower`, which agrees with it on ASCII input.  Cursors, offsets and
sizes are modelled as `Nat`: every value the Go code stores in them is
non-negative, and Go's `x - y` followed by an `if x < 0 { x = 0 }` clamp is
exactly `Nat` truncated subtraction.  Time parsing follows Go's
`time.Parse` for the specific layout strings the code uses (fixed-width
zero-padded fields, one-or-two-digit hours, range validation of month, day,
hour, minute and second); negative years are not modelled.  `sort.Slice` is
modelled by `List.insertionSort`: on the lists the code actually sorts the
comparator is a strict total order (group keys are pairwise distinct), so
every comparison sort produces the same, unique sorted permutation.
-/

namespace DaqBrowser

/-- Go strings, modelled as lists of characters. -/
abbrev GoStr := List Char

/-- Byte-wise lexicographic string comparison, Go's `s < t` on strings. -/
def goStrLt : GoStr → GoStr → Bool
  | [], [] => false
  | [], _ :: _ => true
  | _ :: _, [] => false
  | a :: as, b :: bs =>
    if a.toNat < b.toNat then true
    else if b.toNat < a.toNat then false
    else goStrLt as bs

/-- Go's `strings.ToLower` (ASCII case folding). -/
def toLowerStr (s : GoStr) : GoStr := s.map Char.toLower

/-- Decimal digit test on a character. -/
def isDigitChar (c : Char) : Bool := 48 ≤ c.toNat && c.toNat ≤ 57

/-- Numeric value of a decimal digit character. -/
def digitVal (c : Char) : Nat := c.toNat - 48

/-- Parse exactly `n` decimal digits (Go `time` package fixed-width field). -/
def takeDigitsN : Nat → GoStr → Option (Nat × GoStr)
  | 0, s => some (0, s)
  | _ + 1, [] => none
  | n + 1, c :: s =>
    if isDigitChar c then
      match takeDigitsN n s with
      | some (v, rest) => some (digitVal c * 10 ^ n + v, rest)
      | none => none
    else none

/-- Parse one or two decimal digits (Go `time` package non-padded hour field). -/
def takeDigits12 : GoStr → Option (Nat × GoStr)
  | [] => none
  | c :: s =>
    if isDigitChar c then
      match s with
      | d :: s2 =>
        if isDigitChar d then some (digitVal c * 10 + digitVal d, s2)
        else some (digitVal c, d :: s2)
      | [] => some (digitVal c, [])
    else none

/-- Require the next character to be `c` (a literal in a Go time layout). -/
def expectChar (c : Char) : GoStr → Option GoStr
  | [] => none
  | d :: s => if d = c then some s else none

/-- Gregorian leap-year rule, as used by Go's `time` package. -/
def isLeapYear (y : Nat) : Bool := (y % 4 = 0 && y % 100 ≠ 0) || y % 400 = 0

/-- Number of days in a month, as validated by Go's `time.Parse`. -/
def daysInMonth (y mo : Nat) : Nat :=
  if mo = 2 then (if isLeapYear y then 29 else 28)
  else if mo = 4 || mo = 6 || mo = 9 || mo = 11 then 30
  else 31

/-- Parsed wall-clock fields of a Go `time.Time` (no zone). -/
structure GoDateTime where
  year : Nat
  month : Nat
  day : Nat
  hour : Nat
  minute : Nat
  second : Nat
deriving DecidableEq

/-- Parse the `2006-01-02` portion of a Go layout, with Go's range checks. -/
def parseDatePart (s : GoStr) : Option (Nat × Nat × Nat × GoStr) := do
  let (y, s1) ← takeDigitsN 4 s
  let s2 ← expectChar '-' s1
  let (mo, s3) ← takeDigitsN 2 s2
  let s4 ← expectChar '-' s3
  let (d, s5) ← takeDigitsN 2 s4
  if 1 ≤ mo ∧ mo ≤ 12 ∧ 1 ≤ d ∧ d ≤ daysInMonth y mo then some (y, mo, d, s5) else none

/-- Parse `2006-01-02<sep>15:04:05` and return the leftover input. -/
def parseYMDHMS (sep : Char) (s : GoStr) : Option (GoDateTime × GoStr) := do
  let (y, mo, d, s5) ← parseDatePart s
  let s6 ← expectChar sep s5
  let (h, s7) ← takeDigits12 s6
  let s8 ← expectChar ':' s7
  let (mi, s9) ← takeDigitsN 2 s8
  let s10 ← expectChar ':' s9
  let (se, s11) ← takeDigitsN 2 s10
  if h ≤ 23 ∧ mi ≤ 59 ∧ se ≤ 59 then some (⟨y, mo, d, h, mi, se⟩, s11) else none

/-- Go `time.Parse` with layout `2006-01-02<sep>15:04:05` (entire input consumed). -/
def parseFullDateTime (sep : Char) (s : GoStr) : Option GoDateTime :=
  match parseYMDHMS sep s with
  | some (dt, []) => some dt
  | _ => none

/-- Go `time.Parse` with layout `2006-01-02T15:04:05Z` (trailing literal `Z`). -/
def parseFullDateTimeZ (s : GoStr) : Option GoDateTime :=
  match parseYMDHMS 'T' s with
  | some (dt, ['Z']) => some dt
  | _ => none

/-- Go `time.Parse` with layout `2006-01-02` (entire input consumed). -/
def parseDateOnly (s : GoStr) : Option (Nat × Nat × Nat) :=
  match parseDatePart s with
  | some (y, mo, d, []) => some (y, mo, d)
  | _ => none

/-- Parse `15:04:05`, returning hour and minute (seconds validated, then dropped). -/
def parseHMS (s : GoStr) : Option (Nat × Nat) := do
  let (h, s1) ← takeDigits12 s
  let s2 ← expectChar ':' s1
  let (mi, s3) ← takeDigitsN 2 s2
  let s4 ← expectChar ':' s3
  let (se, s5) ← takeDigitsN 2 s4
  if s5 = [] ∧ h ≤ 23 ∧ mi ≤ 59 ∧ se ≤ 59 then some (h, mi) else none

/-- Parse `15:04`, returning hour and minute. -/
def parseHM (s : GoStr) : Option (Nat × Nat) := do
  let (h, s1) ← takeDigits12 s
  let s2 ← expectChar ':' s1
  let (mi, s3) ← takeDigitsN 2 s2
  if s3 = [] ∧ h ≤ 23 ∧ mi ≤ 59 then some (h, mi) else none

/-- Decimal digit character for `n % 10`. -/
def digitChar (n : Nat) : Char := Char.ofNat (48 + n % 10)

/-- Two-digit zero-padded decimal rendering (Go `Format` field `01`/`04`/`05`). -/
def pad2 (n : Nat) : GoStr := [digitChar (n / 10), digitChar n]

/-- Four-digit zero-padded decimal rendering (Go `Format` field `2006`). -/
def pad4 (n : Nat) : GoStr :=
  [digitChar (n / 1000), digitChar (n / 100), digitChar (n / 10), digitChar n]

/-- Go `t.Format("15:04")`. -/
def fmtHHMM (h mi : Nat) : GoStr := pad2 h ++ ':' :: pad2 mi

/-- Go `t.Format("2006-01-02")`. -/
def fmtDate (y mo d : Nat) : GoStr := pad4 y ++ '-' :: pad2 mo ++ '-' :: pad2 d

/-- Render a `(year, month, day)` triple as `YYYY-MM-DD`. -/
def fmtDateTriple (t : Nat × Nat × Nat) : GoStr := fmtDate t.1 t.2.1 t.2.2

/-- Previous calendar day, with month and year borrow. -/
def prevDate (y mo d : Nat) : Nat × Nat × Nat :=
  if 1 < d then (y, mo, d - 1)
  else if 1 < mo then (y, mo - 1, daysInMonth y (mo - 1))
  else (y - 1, 12, 31)

/-- Calendar date of a UTC instant shifted `offH` whole hours earlier.  This is
`t.In(pacificLoc)` followed by `Format("2006-01-02")` from src/filter.go, with
the reference zone's UTC offset at the instant (8 hours behind UTC for PST,
7 for PDT) abstracted as the parameter `offH`. -/
def pacificDateOf (offH : Nat) (dt : GoDateTime) : GoStr :=
  if offH ≤ dt.hour then fmtDate dt.year dt.month dt.day
  else fmtDateTriple (prevDate dt.year dt.month dt.day)

/-- Model of `utcTimestampToPacificDate` (src/filter.go): try the three
timestamp layouts, then the date-only form, and convert the parsed UTC
instant to the reference zone (`offH` hours behind UTC) before choosing the
calendar date.  Returns `[]` (the empty string) when nothing parses. -/
def utcTimestampToPacificDate (offH : Nat) (timestamp : GoStr) : GoStr :=
  if timestamp = [] then []
  else match parseFullDateTime ' ' timestamp with
  | some dt => pacificDateOf offH dt
  | none => match parseFullDateTime 'T' timestamp with
    | some dt => pacificDateOf offH dt
    | none => match parseFullDateTimeZ timestamp with
      | some dt => pacificDateOf offH dt
      | none =>
        if timestamp.length = 10 then
          match parseDateOnly timestamp with
          | some (y, mo, d) => pacificDateOf offH ⟨y, mo, d, 0, 0, 0⟩
          | none => []
        else []

/-- Last component of a `/`-separated path: `strings.Split(path, "/")`, last
element. -/
def lastPathComponent (path : GoStr) : GoStr :=
  path.foldl (fun acc c => if c = '/' then [] else acc ++ [c]) []

/-- Model of `extractTimeFromPath` (src/filter.go): extract `HH:MM:SS` from a
filename of the form `DD_HH:MM:SS_host:component.log`. -/
def extractTimeFromPath (path : GoStr) : GoStr :=
  let filename := lastPathComponent path
  if 11 < filename.length ∧ filename[2]? = some '_' ∧ filename[5]? = some ':'
      ∧ filename[8]? = some ':' then
    (filename.drop 3).take 8
  else []

/-- The file-path fallback of `extractTimeHHMM`: first five characters of the
path-extracted `HH:MM:SS`, or the empty string. -/
def timeFromPathHHMM (filepath : GoStr) : GoStr :=
  let timeStr := extractTimeFromPath filepath
  if 5 ≤ timeStr.length then timeStr.take 5 else []

/-- Model of the two-argument `extractTimeHHMM` (src/filter.go): get `HH:MM`
from the timestamp field (full datetime, `15:04:05`, `15:04`, or a raw
`HH:MM` prefix), falling back to the file path; empty string on failure. -/
def extractTimeHHMM (timestamp filepath : GoStr) : GoStr :=
  let fromTimestamp : Option GoStr :=
    if timestamp = [] then none
    else match parseFullDateTime ' ' timestamp with
    | some dt => some (fmtHHMM dt.hour dt.minute)
    | none => match parseHMS timestamp with
      | some (h, mi) => some (fmtHHMM h mi)
      | none => match parseHM timestamp with
        | some (h, mi) => some (fmtHHMM h mi)
        | none =>
          if 5 ≤ timestamp.length ∧ timestamp[2]? = some ':' then some (timestamp.take 5)
          else none
  match fromTimestamp with
  | some t => t
  | none => timeFromPathHHMM filepath

/-- Whitespace skipped by Go's `fmt` scanner before a `%d` verb. -/
def skipSpaces (s : GoStr) : GoStr :=
  s.dropWhile (fun c => c = ' ' || c = '\t' || c = '\n' || c = '\r')

/-- Greedily consume decimal digits, accumulating their value. -/
def digitSpan : GoStr → Nat → Nat × GoStr
  | [], acc => (acc, [])
  | c :: s, acc => if isDigitChar c then digitSpan s (acc * 10 + digitVal c) else (acc, c :: s)

/-- Scan an unsigned decimal integer (at least one digit). -/
def scanUInt (s : GoStr) : Option (Nat × GoStr) :=
  match s with
  | c :: s2 => if isDigitChar c then some (digitSpan s2 (digitVal c)) else none
  | [] => none

/-- Scan a `%d` verb of `fmt.Sscanf`: optional whitespace, optional sign,
decimal digits. -/
def scanInt (s : GoStr) : Option (Int × GoStr) :=
  match skipSpaces s with
  | '-' :: rest => (scanUInt rest).map (fun p => (-(p.1 : Int), p.2))
  | '+' :: rest => (scanUInt rest).map (fun p => ((p.1 : Int), p.2))
  | other => (scanUInt other).map (fun p => ((p.1 : Int), p.2))

/-- Model of `parseTimeToMinutes` (src/filter.go): convert `HH:MM` to minutes
since midnight via `fmt.Sscanf("%d:%d")`, returning `-1` on failure. -/
def parseTimeToMinutes (timeStr : GoStr) : Int :=
  if timeStr.length < 5 then -1
  else if timeStr[2]? ≠ some ':' then -1
  else match scanInt timeStr with
  | none => -1
  | some (h, rest) =>
    match rest with
    | ':' :: rest2 =>
      match scanInt rest2 with
      | none => -1
      | some (mi, _) => h * 60 + mi
    | _ => -1

/-- Model of `abs` (src/filter.go). -/
def goAbs (x : Int) : Int := if x < 0 then -x else x

/-- Whether `sub` is a prefix of `s`. -/
def isPrefixStr : GoStr → GoStr → Bool
  | [], _ => true
  | _ :: _, [] => false
  | a :: sub, b :: s => (a = b) && isPrefixStr sub s

/-- Go's `strings.Contains(s, sub)`: `sub` occurs contiguously in `s`. -/
def strContains : GoStr → GoStr → Bool
  | [], sub => isPrefixStr sub []
  | b :: rest, sub => isPrefixStr sub (b :: rest) || strContains rest sub

/-- Model of the `Error` record (src/filter.go database layer). -/
structure Error where
  ID : Int
  Timestamp : GoStr
  Component : GoStr
  Host : GoStr
  LogLevel : GoStr
  ErrorType : GoStr
  Message : GoStr
  LineNumber : Int
  FilePath : GoStr
  ContextBefore : GoStr
  ContextAfter : GoStr
deriving DecidableEq

/-- Model of `ErrorGroup` (src/model.go): errors grouped by (time, component). -/
structure ErrorGroup where
  Time : GoStr
  Component : GoStr
  Errors : List Error
deriving DecidableEq

/-- Panel focus in the three-panel layout (src/model.go). -/
inductive Panel where
  | groups
  | errors
  | context
deriving DecidableEq

/-- The navigation- and filter-relevant fields of the Bubbletea `Model`
(src/model.go).  Rendering state (viewport, text inputs, help, styles) is
outside the engine modelled here. -/
structure Model where
  allErrors : List Error
  filteredErrors : List Error
  groups : List ErrorGroup
  focusedPanel : Panel
  groupCursor : Nat
  errorCursor : Nat
  groupOffset : Nat
  errorOffset : Nat
  pageSize : Nat
  levelFilter : GoStr
  componentFilter : GoStr
  messageFilter : GoStr
  height : Nat
deriving DecidableEq

/-- The sentinel shown for an unresolvable group time (src/filter.go,
`buildGroups`). -/
def unknownTime : GoStr := ['?', '?', ':', '?', '?']

/-- Time-of-day string used to group an error: `extractTimeHHMM`, with the
empty string replaced by the `??:??` placeholder (src/filter.go,
`buildGroups`). -/
def groupTimeStr (e : Error) : GoStr :=
  let t := extractTimeHHMM e.Timestamp e.FilePath
  if t = [] then unknownTime else t

/-- The map key `timeStr + "|" + component` built for an error in
`buildGroups`. -/
def groupKeyOfError (e : Error) : GoStr := groupTimeStr e ++ '|' :: e.Component

/-- The map key a stored group corresponds to. -/
def groupKeyOfGroup (g : ErrorGroup) : GoStr := g.Time ++ '|' :: g.Component

/-- One step of the grouping loop in `buildGroups`: append the error to the
group with its key, or create a new group at the end of the insertion
order. -/
def addToGroups : List ErrorGroup → Error → List ErrorGroup
  | [], e => [⟨groupTimeStr e, e.Component, [e]⟩]
  | g :: gs, e =>
    if groupKeyOfGroup g = groupKeyOfError e then
      ⟨g.Time, g.Component, g.Errors ++ [e]⟩ :: gs
    else g :: addToGroups gs e

/-- The groups in first-seen insertion order, before sorting. -/
def buildGroupsPre (errs : List Error) : List ErrorGroup :=
  errs.foldl addToGroups []

/-- The `sort.Slice` comparator of `buildGroups`: by time, then by component. -/
def groupLess (g1 g2 : ErrorGroup) : Bool :=
  if g1.Time ≠ g2.Time then goStrLt g1.Time g2.Time else goStrLt g1.Component g2.Component

/-- The non-strict order corresponding to `groupLess`, used to state
sortedness of the group list. -/
def GroupLe (g1 g2 : ErrorGroup) : Prop := groupLess g2 g1 = false

instance : DecidableRel GroupLe :=
  fun a b => (inferInstance : Decidable (groupLess b a = false))

/-- Model of `buildGroups` (src/filter.go): group the filtered errors by
(time, component) in insertion order, then sort by time then component.
`sort.Slice` is modelled by `insertionSort`; group keys are pairwise
distinct, so the sorted permutation is unique and any comparison sort
computes it. -/
def buildGroups (errs : List Error) : List ErrorGroup :=
  List.insertionSort GroupLe (buildGroupsPre errs)

/-- Model of `getFilteredGroupErrors` (src/filter.go): the current group's
errors, narrowed by the message filter when one is set. -/
def getFilteredGroupErrors (m : Model) : List Error :=
  match m.groups[m.groupCursor]? with
  | none => []
  | some group =>
    if m.messageFilter = [] then group.Errors
    else group.Errors.filter
      (fun e => strContains (toLowerStr e.Message) (toLowerStr m.messageFilter))

/-- Whether an error passes the level filter (equality) and the component
filter (case-insensitive substring), per `applyFilters` (src/filter.go). -/
def passesFilters (lvl comp : GoStr) (e : Error) : Bool :=
  (lvl == [] || e.LogLevel == lvl)
    && (comp == [] || strContains (toLowerStr e.Component) (toLowerStr comp))

/-- Model of `updateContextPane` (src/model.go): it only rewrites the
rendering viewport's content, which is outside the modelled state, so on
the modelled fields it is the identity. -/
def updateContextPane (m : Model) : Model := m

/-- Model of `applyFilters` (src/filter.go): recompute the filtered set from
`allErrors`, rebuild groups, and reset cursors and offsets. -/
def applyFilters (m : Model) : Model :=
  let fe := m.allErrors.filter (passesFilters m.levelFilter m.componentFilter)
  updateContextPane
    { m with filteredErrors := fe, groups := buildGroups fe,
             groupCursor := 0, errorCursor := 0, groupOffset := 0, errorOffset := 0 }

/-- Model of `applyMessageFilter` (src/filter.go): reset the error cursor and
offset (the filter itself is read lazily by `getFilteredGroupErrors`). -/
def applyMessageFilter (m : Model) : Model :=
  updateContextPane { m with errorCursor := 0, errorOffset := 0 }

/-- Inner loop of `findAndSelectError`: index of the first error with the
given id in a group's error list. -/
def findInGroup (errorID : Int) : List Error → Nat → Option Nat
  | [], _ => none
  | e :: es, ei => if e.ID = errorID then some ei else findInGroup errorID es (ei + 1)

/-- Outer loop of `findAndSelectError`: first (group index, error index)
position of the given id. -/
def findPosAux (errorID : Int) : List ErrorGroup → Nat → Option (Nat × Nat)
  | [], _ => none
  | g :: gs, gi =>
    match findInGroup errorID g.Errors 0 with
    | some ei => some (gi, ei)
    | none => findPosAux errorID gs (gi + 1)

/-- The page size used by the navigation helpers and `findAndSelectError`:
`m.height - 10`, clamped below at `5`. -/
def pageSizeOf (m : Model) : Nat := max (m.height - 10) 5

/-- Model of `findAndSelectError` (src/filter.go): move the cursors (and
page-aligned offsets) to the first occurrence of the id, or do nothing if
it is absent. -/
def findAndSelectError (m : Model) (errorID : Int) : Model :=
  match findPosAux errorID m.groups 0 with
  | none => m
  | some (gi, ei) =>
    let ps := pageSizeOf m
    { m with groupCursor := gi, errorCursor := ei,
             groupOffset := gi / ps * ps, errorOffset := ei / ps * ps }

/-- The filter-clearing half of `clearFilters` (src/filter.go, step 2): drop
all three filters, make the filtered set the full set, and rebuild groups. -/
def clearBase (m : Model) : Model :=
  { m with levelFilter := [], componentFilter := [], messageFilter := [],
           filteredErrors := m.allErrors, groups := buildGroups m.allErrors }

/-- Model of `clearFilters` (src/filter.go): remember the selected error's id,
drop all three filters, rebuild groups from the full set, and re-locate the
remembered id when it is positive. -/
def clearFilters (m : Model) : Model :=
  let errors := getFilteredGroupErrors m
  let currentErrorID : Int :=
    if h : m.errorCursor < errors.length then (errors.get ⟨m.errorCursor, h⟩).ID else 0
  if 0 < currentErrorID then updateContextPane (findAndSelectError (clearBase m) currentErrorID)
  else updateContextPane (clearBase m)

/-- Model of `selectedError` (src/model.go): the error under the cursor in the
current group's filtered list, if any. -/
def selectedError (m : Model) : Option Error :=
  (getFilteredGroupErrors m)[m.errorCursor]?

/-- Model of `totalErrorsInGroups` (src/filter.go). -/
def totalErrorsInGroups (gs : List ErrorGroup) : Nat :=
  (gs.map (fun g => g.Errors.length)).sum

/-- The scan loop of `jumpToTime` (src/filter.go): running best index and best
difference over the group list, starting at position `i`. -/
def jumpLoopAux (target : Int) : List ErrorGroup → Nat → Nat → Int → Nat × Int
  | [], _, bestIdx, bestDiff => (bestIdx, bestDiff)
  | g :: gs, i, bestIdx, bestDiff =>
    let gm := parseTimeToMinutes g.Time
    if gm < 0 then jumpLoopAux target gs (i + 1) bestIdx bestDiff
    else
      let d := goAbs (gm - target)
      if d < bestDiff then jumpLoopAux target gs (i + 1) i d
      else jumpLoopAux target gs (i + 1) bestIdx bestDiff

/-- Model of `jumpToTime` (src/filter.go): move the group cursor to the group
whose time is nearest the target, a no-op when the group list is empty or
the target does not parse. -/
def jumpToTime (m : Model) (timeStr : GoStr) : Model :=
  if m.groups.length = 0 then m
  else
    let targetMinutes := parseTimeToMinutes timeStr
    if targetMinutes < 0 then m
    else
      let best := jumpLoopAux targetMinutes m.groups 0 0 (24 * 60)
      updateContextPane
        { m with groupCursor := best.1, errorCursor := 0,
                 groupOffset := best.1 / m.pageSize * m.pageSize, errorOffset := 0 }

/-- Model of `navigateUp` (navigation/update file): move the focused panel's
cursor up one row, scrolling minimally; changing the selected group resets
the error cursor, error offset and message filter. -/
def navigateUp (m : Model) : Model :=
  if m.focusedPanel = Panel.groups then
    if 0 < m.groupCursor then
      let c := m.groupCursor - 1
      updateContextPane
        { m with groupCursor := c,
                 groupOffset := if c < m.groupOffset then c else m.groupOffset,
                 errorCursor := 0, errorOffset := 0, messageFilter := [] }
    else m
  else
    if 0 < m.errorCursor then
      let c := m.errorCursor - 1
      updateContextPane
        { m with errorCursor := c,
                 errorOffset := if c < m.errorOffset then c else m.errorOffset }
    else m

/-- Model of `navigateDown`. -/
def navigateDown (m : Model) : Model :=
  let vc := pageSizeOf m
  if m.focusedPanel = Panel.groups then
    if m.groupCursor < m.groups.length - 1 then
      let c := m.groupCursor + 1
      updateContextPane
        { m with groupCursor := c,
                 groupOffset := if m.groupOffset + vc ≤ c then c - vc + 1 else m.groupOffset,
                 errorCursor := 0, errorOffset := 0, messageFilter := [] }
    else m
  else
    let errors := getFilteredGroupErrors m
    if m.errorCursor < errors.length - 1 then
      let c := m.errorCursor + 1
      updateContextPane
        { m with errorCursor := c,
                 errorOffset := if m.errorOffset + vc ≤ c then c - vc + 1 else m.errorOffset }
    else m

/-- Model of `navigatePageUp`. -/
def navigatePageUp (m : Model) : Model :=
  let ps := pageSizeOf m
  if m.focusedPanel = Panel.groups then
    let c := m.groupCursor - ps
    updateContextPane
      { m with groupCursor := c, groupOffset := c / ps * ps,
               errorCursor := 0, errorOffset := 0, messageFilter := [] }
  else
    let c := m.errorCursor - ps
    updateContextPane { m with errorCursor := c, errorOffset := c / ps * ps }

/-- Model of `navigatePageDown`. -/
def navigatePageDown (m : Model) : Model :=
  let ps := pageSizeOf m
  if m.focusedPanel = Panel.groups then
    let c0 := m.groupCursor + ps
    let c := if m.groups.length ≤ c0 then m.groups.length - 1 else c0
    updateContextPane
      { m with groupCursor := c, groupOffset := c / ps * ps,
               errorCursor := 0, errorOffset := 0, messageFilter := [] }
  else
    let errors := getFilteredGroupErrors m
    let c0 := m.errorCursor + ps
    let c := if errors.length ≤ c0 then errors.length - 1 else c0
    updateContextPane { m with errorCursor := c, errorOffset := c / ps * ps }

/-- Model of `navigateHome`. -/
def navigateHome (m : Model) : Model :=
  if m.focusedPanel = Panel.groups then
    updateContextPane
      { m with groupCursor := 0, groupOffset := 0,
               errorCursor := 0, errorOffset := 0, messageFilter := [] }
  else
    updateContextPane { m with errorCursor := 0, errorOffset := 0 }

/-- Model of `navigateEnd`. -/
def navigateEnd (m : Model) : Model :=
  let ps := pageSizeOf m
  if m.focusedPanel = Panel.groups then
    updateContextPane
      { m with groupCursor := m.groups.length - 1,
               groupOffset := m.groups.length - ps,
               errorCursor := 0, errorOffset := 0, messageFilter := [] }
  else
    let errors := getFilteredGroupErrors m
    updateContextPane
      { m with errorCursor := errors.length - 1,
               errorOffset := errors.length - ps }

/-- The six cursor-navigation operations of the error explorer. -/
inductive NavOp where
  | up
  | down
  | pageUp
  | pageDown
  | home
  | toEnd
deriving DecidableEq

/-- Dispatch one navigation operation. -/
def applyOp : NavOp → Model → Model
  | NavOp.up, m => navigateUp m
  | NavOp.down, m => navigateDown m
  | NavOp.pageUp, m => navigatePageUp m
  | NavOp.pageDown, m => navigatePageDown m
  | NavOp.home, m => navigateHome m
  | NavOp.toEnd, m => navigateEnd m

/-- Apply a finite sequence of navigation operations, left to right. -/
def applyOps (ops : List NavOp) (m : Model) : Model :=
  ops.foldl (fun s op => applyOp op s) m

/-- Cursor/offset wellformedness of one scrollable panel with `n` rows and
`vc` visible rows: the cursor is in range (position zero for an empty
list), and the cursor lies in the visible window starting at the offset. -/
def panelInv (c o n vc : Nat) : Prop := c < max 1 n ∧ o ≤ c ∧ c < o + vc

instance (c o n vc : Nat) : Decidable (panelInv c o n vc) := by
  unfold panelInv; infer_instance

/-- Wellformedness of the two scrollable panels of the error explorer. -/
def navInv (m : Model) : Prop :=
  panelInv m.groupCursor m.groupOffset m.groups.length (pageSizeOf m)
    ∧ panelInv m.errorCursor m.errorOffset (getFilteredGroupErrors m).length (pageSizeOf m)

instance (m : Model) : Decidable (navInv m) := by
  unfold navInv; infer_instance

/-- Sample error records and states used to instantiate the theorems. -/
def sampleError1 : Error :=
  ⟨1, "01:00:00".data, ['a'], [], ['E'], [], ['m', '1'], 1, [], [], []⟩

/-- Second sample error, in a later time group than `sampleError1`. -/
def sampleError2 : Error :=
  ⟨2, "02:00:00".data, ['a'], [], ['E'], [], ['m', '2'], 2, [], [], []⟩

/-- Sample explorer state: two errors loaded, no filters, cursors at zero. -/
def sampleModel : Model :=
  ⟨[sampleError1, sampleError2], [sampleError1, sampleError2],
   buildGroups [sampleError1, sampleError2], Panel.groups, 0, 0, 0, 0, 15, [], [], [], 20⟩

/-- Sample state with an active message filter. -/
def sampleModelMsg : Model := { sampleModel with messageFilter := ['x'] }

/-- An error whose id does not occur in `sampleModel.allErrors`. -/
def strayError : Error :=
  ⟨5, "03:00:00".data, ['b'], [], ['E'], [], ['m', '5'], 5, [], [], []⟩

/-- A state whose selected error (id 5) is absent from the loaded error set,
with the group cursor away from zero. -/
def strayState : Model :=
  { sampleModel with
      groups := buildGroups [sampleError1, sampleError2] ++ [⟨"03:00".data, ['b'], [strayError]⟩],
      groupCursor := 2 }

/-- The state after the round trip of the clear-filter scenario: clear, move
the group cursor down one (selecting the second group's error), apply a
component filter that keeps both errors, clear again. -/
def roundTripMid : Model :=
  navigateDown (clearFilters sampleModel)

/-- The round-trip state after re-applying a component filter that still
matches both errors and clearing once more. -/
def roundTripEnd : Model :=
  clearFilters (applyFilters { roundTripMid with componentFilter := ['a'] })

/-- A state violating the cursor invariant: one group but the group cursor
stuck at five. -/
def badCursorState : Model :=
  { sampleModel with groups := [⟨"01:00".data, ['a'], [sampleError1]⟩], groupCursor := 5 }

/-- Two groups whose only resolvable time parses to an out-of-range
minutes-since-midnight value (6039); used for the jump-to-time analysis. -/
def outOfRangeGroups : List ErrorGroup :=
  [⟨unknownTime, ['a'], [sampleError1]⟩, ⟨"99:99".data, ['b'], [sampleError2]⟩]

/-- State holding `outOfRangeGroups`. -/
def outOfRangeState : Model := { sampleModel with groups := outOfRangeGroups }

/-- State whose groups all have unresolvable times. -/
def unknownTimesState : Model :=
  { sampleModel with
      groups := [⟨unknownTime, ['a'], [sampleError1]⟩, ⟨unknownTime, ['b'], [sampleError2]⟩],
      groupCursor := 1 }

/-- State with group times 07:50 and 08:05, for the nearest-jump example. -/
def jumpSampleState : Model :=
  { sampleModel with
      groups := [⟨"07:50".data, ['a'], [sampleError1]⟩, ⟨"08:05".data, ['a'], [sampleError2]⟩] }

/-- A five-character digit time `HH:MM` (all-digit hour and minute fields). -/
def isDigitHHMM (s : GoStr) : Bool :=
  match s with
  | [d1, d2, c, d3, d4] =>
    isDigitChar d1 && isDigitChar d2 && (c = ':') && isDigitChar d3 && isDigitChar d4
  | _ => false

/-- Invariant of the grouping loop of `buildGroups`: after the errors
`processed` have been folded in, the accumulated group list collects each
error under its key, has pairwise-distinct keys and five-character times,
covers every processed error, and holds exactly as many errors as were
processed. -/
structure GroupAccWF (processed : List Error) (acc : List ErrorGroup) : Prop where
  collect : ∀ g ∈ acc,
    g.Errors = processed.filter (fun e => groupKeyOfError e == groupKeyOfGroup g)
  distinct : acc.Pairwise (fun g1 g2 => groupKeyOfGroup g1 ≠ groupKeyOfGroup g2)
  complete : ∀ e ∈ processed, ∃ g ∈ acc, groupKeyOfGroup g = groupKeyOfError e
  timeLen : ∀ g ∈ acc, g.Time.length = 5
  count : totalErrorsInGroups acc = processed.length

end DaqBrowser

namespace DaqBrowser

/-- Page-alignment bounds: `c / ps * ps` is the start of the page containing
`c`. -/
theorem pageAlign_bounds (c ps : Nat) (hps : 0 < ps) :
    c / ps * ps ≤ c ∧ c < c / ps * ps + ps := by
  have h1 : ps * (c / ps) + c % ps = c := Nat.div_add_mod c ps
  have h2 : c % ps < ps := Nat.mod_lt c hps
  rw [Nat.mul_comm (c / ps) ps]
  omega

/-- The navigation page size is at least five rows. -/
theorem pageSizeOf_pos (m : Model) : 5 ≤ pageSizeOf m := by
  simp [pageSizeOf]

/-- An empty-window panel state is wellformed. -/
theorem panelInv_zero (n vc : Nat) (hvc : 0 < vc) : panelInv 0 0 n vc := by
  refine ⟨?_, Nat.le_refl 0, by omega⟩
  have := Nat.le_max_left 1 n
  omega

/-- String comparison is irreflexive. -/
theorem goStrLt_irrefl (s : GoStr) : goStrLt s s = false := by
  induction s with
  | nil => rfl
  | cons a as ih => simp [goStrLt, ih]

/-- String comparison is asymmetric. -/
theorem goStrLt_asymm : ∀ (a b : GoStr), goStrLt a b = true → goStrLt b a = false
  | [], [], h => by simpa [goStrLt] using h
  | [], _ :: _, _ => by simp [goStrLt]
  | _ :: _, [], h => by simpa [goStrLt] using h
  | a :: as, b :: bs, h => by
    simp only [goStrLt] at h ⊢
    by_cases h1 : a.toNat < b.toNat
    · rw [if_neg (by omega), if_pos h1]
    · by_cases h2 : b.toNat < a.toNat
      · rw [if_neg h1, if_pos h2] at h
        cases h
      · rw [if_neg h1, if_neg h2] at h
        rw [if_neg h2, if_neg h1]
        exact goStrLt_asymm as bs h

/-- String comparison is transitive. -/
theorem goStrLt_trans : ∀ (a b c : GoStr),
    goStrLt a b = true → goStrLt b c = true → goStrLt a c = true
  | [], b, c :: cs, _, _ => by simp [goStrLt]
  | [], [], [], _, h2 => by simpa [goStrLt] using h2
  | [], _ :: _, [], _, h2 => by simpa [goStrLt] using h2
  | _ :: _, [], _, h1, _ => by simp [goStrLt] at h1
  | _ :: _, _ :: _, [], _, h2 => by simp [goStrLt] at h2
  | a :: as, b :: bs, c :: cs, h1, h2 => by
    simp only [goStrLt] at h1 h2 ⊢
    by_cases hab : a.toNat < b.toNat <;> by_cases hbc : b.toNat < c.toNat
    · rw [if_pos (by omega)]
    · rw [if_neg hbc] at h2
      by_cases hcb : c.toNat < b.toNat
      · rw [if_pos hcb] at h2; cases h2
      · rw [if_pos (by omega)]
    · rw [if_neg hab] at h1
      by_cases hba : b.toNat < a.toNat
      · rw [if_pos hba] at h1; cases h1
      · rw [if_pos (by omega)]
    · rw [if_neg hab] at h1
      rw [if_neg hbc] at h2
      by_cases hba : b.toNat < a.toNat
      · rw [if_pos hba] at h1; cases h1
      · by_cases hcb : c.toNat < b.toNat
        · rw [if_pos hcb] at h2; cases h2
        · rw [if_neg hba] at h1
          rw [if_neg hcb] at h2
          rw [if_neg (by omega), if_neg (by omega)]
          exact goStrLt_trans as bs cs h1 h2

/-- Two strings neither of which compares below the other are equal. -/
theorem goStrLt_eq_of_not : ∀ (a b : GoStr),
    goStrLt a b = false → goStrLt b a = false → a = b
  | [], [], _, _ => rfl
  | [], _ :: _, h1, _ => by simp [goStrLt] at h1
  | _ :: _, [], _, h2 => by simp [goStrLt] at h2
  | a :: as, b :: bs, h1, h2 => by
    simp only [goStrLt] at h1 h2
    by_cases hab : a.toNat < b.toNat
    · rw [if_pos hab] at h1; cases h1
    · by_cases hba : b.toNat < a.toNat
      · rw [if_pos hba] at h2; cases h2
      · rw [if_neg hab, if_neg hba] at h1
        rw [if_neg hba, if_neg hab] at h2
        have hn : a.toNat = b.toNat := by omega
        have hc : a = b := Char.ext (UInt32.ext hn)
        rw [hc, goStrLt_eq_of_not as bs h1 h2]

/-- `fmtHHMM` always renders five characters. -/
theorem fmtHHMM_length (h mi : Nat) : (fmtHHMM h mi).length = 5 := by
  simp [fmtHHMM, pad2]

/-- The path fallback yields the empty string or five characters. -/
theorem timeFromPathHHMM_len (fp : GoStr) :
    timeFromPathHHMM fp = [] ∨ (timeFromPathHHMM fp).length = 5 := by
  simp only [timeFromPathHHMM]
  split_ifs with h
  · right
    simp only [List.length_take]
    omega
  · left; rfl

/-- `extractTimeHHMM` yields the empty string or five characters. -/
theorem extractTimeHHMM_len (ts fp : GoStr) :
    extractTimeHHMM ts fp = [] ∨ (extractTimeHHMM ts fp).length = 5 := by
  unfold extractTimeHHMM
  by_cases hts : ts = []
  · rw [if_pos hts]
    exact timeFromPathHHMM_len fp
  · rw [if_neg hts]
    rcases h1 : parseFullDateTime ' ' ts with _ | dt
    · rcases h2 : parseHMS ts with _ | ⟨hh, mi⟩
      · rcases h3 : parseHM ts with _ | ⟨hh, mi⟩
        · by_cases h4 : 5 ≤ ts.length ∧ ts[2]? = some ':'
          · rw [if_pos h4]
            right
            simp only [List.length_take]
            omega
          · rw [if_neg h4]
            exact timeFromPathHHMM_len fp
        · right
          exact fmtHHMM_length hh mi
      · right
        exact fmtHHMM_length hh mi
    · right
      exact fmtHHMM_length dt.hour dt.minute

/-- The grouping time string always has five characters. -/
theorem groupTimeStr_length (e : Error) : (groupTimeStr e).length = 5 := by
  simp only [groupTimeStr]
  by_cases hz : extractTimeHHMM e.Timestamp e.FilePath = []
  · rw [if_pos hz]; rfl
  · rw [if_neg hz]
    rcases extractTimeHHMM_len e.Timestamp e.FilePath with h | h
    · exact absurd h hz
    · exact h

/-- Two grouping keys agree exactly when both the five-character time and the
component agree. -/
theorem groupKey_injective {t1 t2 c1 c2 : GoStr} (hl1 : t1.length = 5) (hl2 : t2.length = 5) :
    t1 ++ '|' :: c1 = t2 ++ '|' :: c2 ↔ (t1 = t2 ∧ c1 = c2) := by
  constructor
  · intro h
    obtain ⟨ha, hb⟩ := List.append_inj h (hl1.trans hl2.symm)
    exact ⟨ha, by injection hb⟩
  · rintro ⟨hl, hr⟩
    rw [hl, hr]

/-- One insertion grows the total error count by one. -/
theorem totalErrors_addToGroups (acc : List ErrorGroup) (e : Error) :
    totalErrorsInGroups (addToGroups acc e) = totalErrorsInGroups acc + 1 := by
  induction acc with
  | nil => rfl
  | cons g gs ih =>
    simp only [addToGroups]
    split_ifs with h
    · simp only [totalErrorsInGroups, List.map_cons, List.sum_cons, List.length_append,
        List.length_cons, List.length_nil]
      omega
    · simp only [totalErrorsInGroups, List.map_cons, List.sum_cons] at ih ⊢
      omega

/-- The keys of the accumulated groups after one insertion: unchanged when the
error's key is already present, extended by it at the end otherwise. -/
theorem keys_addToGroups (acc : List ErrorGroup) (e : Error) :
    ((∃ g ∈ acc, groupKeyOfGroup g = groupKeyOfError e)
        ∧ (addToGroups acc e).map groupKeyOfGroup = acc.map groupKeyOfGroup)
      ∨ ((∀ g ∈ acc, groupKeyOfGroup g ≠ groupKeyOfError e)
        ∧ (addToGroups acc e).map groupKeyOfGroup
            = acc.map groupKeyOfGroup ++ [groupKeyOfError e]) := by
  induction acc with
  | nil =>
    right
    exact ⟨by simp, rfl⟩
  | cons g gs ih =>
    simp only [addToGroups]
    split_ifs with h
    · left
      exact ⟨⟨g, List.mem_cons_self g gs, h⟩, rfl⟩
    · rcases ih with ⟨⟨g0, hg0, hk0⟩, hmap⟩ | ⟨hall, hmap⟩
      · left
        exact ⟨⟨g0, List.mem_cons_of_mem g hg0, hk0⟩, by simp only [List.map_cons, hmap]⟩
      · right
        refine ⟨?_, by simp only [List.map_cons, hmap, List.cons_append]⟩
        intro g' hg'
        rcases List.mem_cons.mp hg' with rfl | hmem
        · exact h
        · exact hall g' hmem

/-- Every group after an insertion carries either the inserted error's time
string or a time string already present. -/
theorem times_addToGroups (acc : List ErrorGroup) (e : Error) :
    ∀ g' ∈ addToGroups acc e, g'.Time = groupTimeStr e ∨ ∃ g ∈ acc, g'.Time = g.Time := by
  induction acc with
  | nil =>
    intro g' hg'
    simp only [addToGroups, List.mem_singleton] at hg'
    subst hg'
    left; rfl
  | cons g gs ih =>
    intro g' hg'
    simp only [addToGroups] at hg'
    split_ifs at hg' with h
    · rcases List.mem_cons.mp hg' with rfl | hmem
      · right; exact ⟨g, List.mem_cons_self g gs, rfl⟩
      · right; exact ⟨g', List.mem_cons_of_mem g hmem, rfl⟩
    · rcases List.mem_cons.mp hg' with rfl | hmem
      · right; exact ⟨g', List.mem_cons_self g' gs, rfl⟩
      · rcases ih g' hmem with h1 | ⟨g0, hg0, ht⟩
        · left; exact h1
        · right; exact ⟨g0, List.mem_cons_of_mem g hg0, ht⟩

/-- One insertion step extends the per-key collection property: each group of
the new accumulator collects, from the errors processed so far plus the new
one, exactly those with its key. -/
theorem collect_addToGroups (p : List Error) (e : Error) :
    ∀ acc : List ErrorGroup,
      (∀ g ∈ acc, g.Errors = p.filter (fun x => groupKeyOfError x == groupKeyOfGroup g)) →
      acc.Pairwise (fun g1 g2 => groupKeyOfGroup g1 ≠ groupKeyOfGroup g2) →
      ((∃ g ∈ acc, groupKeyOfGroup g = groupKeyOfError e)
        ∨ ∀ x ∈ p, groupKeyOfError x ≠ groupKeyOfError e) →
      ∀ g' ∈ addToGroups acc e,
        g'.Errors = (p ++ [e]).filter (fun x => groupKeyOfError x == groupKeyOfGroup g') := by
  intro acc
  induction acc with
  | nil =>
    intro _ _ hnew g' hg'
    simp only [addToGroups, List.mem_singleton] at hg'
    subst hg'
    rcases hnew with ⟨g, hg, _⟩ | hnew
    · simp at hg
    · rw [List.filter_append]
      have hp : p.filter
          (fun x => groupKeyOfError x
            == groupKeyOfGroup ⟨groupTimeStr e, e.Component, [e]⟩) = [] := by
        rw [List.filter_eq_nil_iff]
        intro x hx
        simp only [beq_iff_eq]
        exact hnew x hx
      rw [hp]
      have hpe : (groupKeyOfError e
          == groupKeyOfGroup (⟨groupTimeStr e, e.Component, [e]⟩ : ErrorGroup)) = true := by
        simp only [beq_iff_eq]
        rfl
      simp [List.filter_cons, hpe]
  | cons g gs ih =>
    intro hcol hdis hnew g' hg'
    rw [List.pairwise_cons] at hdis
    obtain ⟨hdg, hdgs⟩ := hdis
    simp only [addToGroups] at hg'
    split_ifs at hg' with hk
    · rcases List.mem_cons.mp hg' with rfl | hmem
      · have hcg := hcol g (List.mem_cons_self g gs)
        rw [List.filter_append]
        have he : [e].filter
            (fun x => groupKeyOfError x
              == groupKeyOfGroup ⟨g.Time, g.Component, g.Errors ++ [e]⟩) = [e] := by
          simp only [List.filter_cons, List.filter_nil]
          rw [if_pos]
          simp only [beq_iff_eq]
          exact hk.symm
        rw [he]
        show g.Errors ++ [e] = _ ++ [e]
        rw [hcg]
        rfl
      · have hcg := hcol g' (List.mem_cons_of_mem g hmem)
        rw [List.filter_append]
        have he : [e].filter (fun x => groupKeyOfError x == groupKeyOfGroup g') = [] := by
          simp only [List.filter_cons, List.filter_nil]
          rw [if_neg]
          simp only [beq_iff_eq]
          intro hEq
          exact hdg g' hmem (hk.trans hEq)
        rw [he, List.append_nil]
        exact hcg
    · rcases List.mem_cons.mp hg' with rfl | hmem
      · have hcg := hcol g' (List.mem_cons_self g' gs)
        rw [List.filter_append]
        have he : [e].filter (fun x => groupKeyOfError x == groupKeyOfGroup g') = [] := by
          simp only [List.filter_cons, List.filter_nil]
          rw [if_neg]
          simp only [beq_iff_eq]
          intro hEq
          exact hk hEq.symm
        rw [he, List.append_nil]
        exact hcg
      · refine ih ?_ hdgs ?_ g' hmem
        · intro g0 hg0
          exact hcol g0 (List.mem_cons_of_mem g hg0)
        · rcases hnew with ⟨g0, hg0, hk0⟩ | hall
          · rcases List.mem_cons.mp hg0 with rfl | hmem0
            · exact absurd hk0 hk
            · exact Or.inl ⟨g0, hmem0, hk0⟩
          · exact Or.inr hall

/-- One insertion preserves the full grouping invariant. -/
theorem groupAccWF_step {p : List Error} {acc : List ErrorGroup}
    (hw : GroupAccWF p acc) (e : Error) : GroupAccWF (p ++ [e]) (addToGroups acc e) := by
  have hnew : (∃ g ∈ acc, groupKeyOfGroup g = groupKeyOfError e)
      ∨ ∀ x ∈ p, groupKeyOfError x ≠ groupKeyOfError e := by
    by_cases hex : ∃ g ∈ acc, groupKeyOfGroup g = groupKeyOfError e
    · exact Or.inl hex
    · right
      intro x hx hkey
      obtain ⟨g, hg, hkg⟩ := hw.complete x hx
      exact hex ⟨g, hg, by rw [hkg, hkey]⟩
  refine ⟨?_, ?_, ?_, ?_, ?_⟩
  · exact collect_addToGroups p e acc hw.collect hw.distinct hnew
  · have hpair : ((addToGroups acc e).map groupKeyOfGroup).Pairwise (· ≠ ·) := by
      rcases keys_addToGroups acc e with ⟨_, hmap⟩ | ⟨hall, hmap⟩
      · rw [hmap]
        exact (List.pairwise_map).mpr hw.distinct
      · rw [hmap]
        apply List.pairwise_append.mpr
        refine ⟨(List.pairwise_map).mpr hw.distinct, List.pairwise_singleton _ _, ?_⟩
        intro a ha b hb
        simp only [List.mem_singleton] at hb
        subst hb
        obtain ⟨g0, hg0, rfl⟩ := List.mem_map.mp ha
        exact hall g0 hg0
    exact (List.pairwise_map).mp hpair
  · intro x hx
    rcases List.mem_append.mp hx with hxp | hxe
    · obtain ⟨g0, hg0, hk0⟩ := hw.complete x hxp
      have hmem : groupKeyOfError x ∈ (addToGroups acc e).map groupKeyOfGroup := by
        rcases keys_addToGroups acc e with ⟨_, hmap⟩ | ⟨_, hmap⟩
        · rw [hmap]
          exact List.mem_map.mpr ⟨g0, hg0, hk0⟩
        · rw [hmap]
          exact List.mem_append_left _ (List.mem_map.mpr ⟨g0, hg0, hk0⟩)
      obtain ⟨g1, hg1, hkey1⟩ := List.mem_map.mp hmem
      exact ⟨g1, hg1, hkey1⟩
    · simp only [List.mem_singleton] at hxe
      subst hxe
      have hmem : groupKeyOfError x ∈ (addToGroups acc x).map groupKeyOfGroup := by
        rcases keys_addToGroups acc x with ⟨⟨g0, hg0, hk0⟩, hmap⟩ | ⟨_, hmap⟩
        · rw [hmap]
          exact List.mem_map.mpr ⟨g0, hg0, hk0⟩
        · rw [hmap]
          exact List.mem_append_right _ (List.mem_singleton.mpr rfl)
      obtain ⟨g1, hg1, hkey1⟩ := List.mem_map.mp hmem
      exact ⟨g1, hg1, hkey1⟩
  · intro g' hg'
    rcases times_addToGroups acc e g' hg' with h | ⟨g0, hg0, ht⟩
    · rw [h]; exact groupTimeStr_length e
    · rw [ht]; exact hw.timeLen g0 hg0
  · rw [totalErrors_addToGroups, hw.count]
    simp

/-- Folding a list of errors into a wellformed accumulator stays wellformed. -/
theorem groupAccWF_fold (errs : List Error) :
    ∀ p acc, GroupAccWF p acc → GroupAccWF (p ++ errs) (errs.foldl addToGroups acc) := by
  induction errs with
  | nil =>
    intro p acc h
    simpa using h
  | cons e rest ih =>
    intro p acc h
    have h3 := ih (p ++ [e]) (addToGroups acc e) (groupAccWF_step h e)
    have heq : (p ++ [e]) ++ rest = p ++ e :: rest := by simp
    rw [heq] at h3
    exact h3

/-- The insertion-order group list is a wellformed grouping of the input. -/
theorem buildGroupsPre_wf (errs : List Error) : GroupAccWF errs (buildGroupsPre errs) := by
  have h0 : GroupAccWF [] [] := ⟨by simp, by simp, by simp, by simp, rfl⟩
  have h := groupAccWF_fold errs [] [] h0
  simpa [buildGroupsPre] using h

/-- The sorted group list is a wellformed grouping of the input. -/
theorem buildGroups_wf (errs : List Error) : GroupAccWF errs (buildGroups errs) := by
  have hw := buildGroupsPre_wf errs
  have hperm : List.Perm (buildGroups errs) (buildGroupsPre errs) :=
    List.perm_insertionSort GroupLe (buildGroupsPre errs)
  refine ⟨?_, ?_, ?_, ?_, ?_⟩
  · intro g hg
    exact hw.collect g (hperm.mem_iff.mp hg)
  · exact (hperm.pairwise_iff (fun h => fun e => h e.symm)).mpr hw.distinct
  · intro x hx
    obtain ⟨g, hg, hk⟩ := hw.complete x hx
    exact ⟨g, hperm.mem_iff.mpr hg, hk⟩
  · intro g hg
    exact hw.timeLen g (hperm.mem_iff.mp hg)
  · have hsum := (hperm.map (fun g => g.Errors.length)).sum_eq
    simpa only [totalErrorsInGroups] using hsum.trans hw.count

/-- Claim C3: the groups built by `buildGroups` partition the filtered error
set exactly — the group sizes sum to the size of the input, each group
collects exactly the input errors sharing its (time-of-day, component) key,
distinct groups have distinct keys, and every input error lands in some
group (hence, with key-distinctness, in exactly one). -/
theorem buildGroups_partitions (errs : List Error) :
    totalErrorsInGroups (buildGroups errs) = errs.length
      ∧ (∀ g ∈ buildGroups errs,
        g.Errors = errs.filter (fun e => groupTimeStr e == g.Time && e.Component == g.Component))
      ∧ (buildGroups errs).Pairwise
        (fun g1 g2 => ¬ (g1.Time = g2.Time ∧ g1.Component = g2.Component))
      ∧ (∀ e ∈ errs, ∃ g ∈ buildGroups errs, e ∈ g.Errors) := by
  obtain ⟨hcol, hdis, hcom, hlen, hcnt⟩ := buildGroups_wf errs
  refine ⟨hcnt, ?_, ?_, ?_⟩
  · intro g hg
    rw [hcol g hg]
    apply List.filter_congr
    intro x _
    have h1 : (groupTimeStr x).length = 5 := groupTimeStr_length x
    have h2 : g.Time.length = 5 := hlen g hg
    have hiff : groupKeyOfError x = groupKeyOfGroup g
        ↔ (groupTimeStr x = g.Time ∧ x.Component = g.Component) :=
      groupKey_injective h1 h2
    rw [Bool.eq_iff_iff]
    simp only [beq_iff_eq, Bool.and_eq_true]
    exact hiff
  · refine List.Pairwise.imp_of_mem ?_ hdis
    intro g1 g2 hg1 hg2 hne hpair
    exact hne (groupKey_injective (hlen g1 hg1) (hlen g2 hg2) |>.mpr hpair)
  · intro e he
    obtain ⟨g, hg, hk⟩ := hcom e he
    refine ⟨g, hg, ?_⟩
    rw [hcol g hg]
    exact List.mem_filter.mpr ⟨he, by simp only [beq_iff_eq]; exact hk.symm⟩

/-- Witness for C3 at a concrete two-error day. -/
theorem buildGroups_partitions_witness :
    sampleError1 ∈ [sampleError1, sampleError2]
      ∧ ∃ g ∈ buildGroups [sampleError1, sampleError2], sampleError1 ∈ g.Errors :=
  ⟨by decide,
   (buildGroups_partitions [sampleError1, sampleError2]).2.2.2 sampleError1 (by decide)⟩

/-- The group comparator only reads the time and component fields. -/
theorem groupLess_congr {a b : ErrorGroup} (c : ErrorGroup)
    (ht : a.Time = b.Time) (hc : a.Component = b.Component) :
    groupLess c a = groupLess c b := by
  unfold groupLess
  rw [ht, hc]

/-- The group comparator is asymmetric. -/
theorem groupLess_asymm {a b : ErrorGroup} (h : groupLess a b = true) :
    groupLess b a = false := by
  unfold groupLess at h ⊢
  by_cases ht : a.Time = b.Time
  · rw [if_neg (not_not_intro ht)] at h
    rw [if_neg (not_not_intro ht.symm)]
    exact goStrLt_asymm _ _ h
  · rw [if_pos ht] at h
    rw [if_pos (Ne.symm ht)]
    exact goStrLt_asymm _ _ h

/-- The group comparator is transitive. -/
theorem groupLess_trans {a b c : ErrorGroup}
    (h1 : groupLess a b = true) (h2 : groupLess b c = true) : groupLess a c = true := by
  unfold groupLess at h1 h2 ⊢
  by_cases hab : a.Time = b.Time <;> by_cases hbc : b.Time = c.Time
  · rw [if_neg (not_not_intro hab)] at h1
    rw [if_neg (not_not_intro hbc)] at h2
    rw [if_neg (not_not_intro (hab.trans hbc))]
    exact goStrLt_trans _ _ _ h1 h2
  · rw [if_pos hbc] at h2
    rw [if_pos (fun he => hbc (hab.symm.trans he))]
    rw [hab]
    exact h2
  · rw [if_pos hab] at h1
    rw [if_pos (fun he => hab (he.trans hbc.symm))]
    rw [← hbc]
    exact h1
  · rw [if_pos hab] at h1
    rw [if_pos hbc] at h2
    have hlt := goStrLt_trans _ _ _ h1 h2
    have hac : a.Time ≠ c.Time := by
      intro he
      rw [he] at h1
      have hasym := goStrLt_asymm _ _ h2
      rw [h1] at hasym
      cases hasym
    rw [if_pos hac]
    exact hlt

/-- Two groups neither of which compares below the other agree on time and
component. -/
theorem groupLess_eq_of_not {a b : ErrorGroup}
    (h1 : groupLess a b = false) (h2 : groupLess b a = false) :
    a.Time = b.Time ∧ a.Component = b.Component := by
  unfold groupLess at h1 h2
  by_cases ht : a.Time = b.Time
  · rw [if_neg (not_not_intro ht)] at h1
    rw [if_neg (not_not_intro ht.symm)] at h2
    exact ⟨ht, goStrLt_eq_of_not _ _ h1 h2⟩
  · rw [if_pos ht] at h1
    rw [if_pos (Ne.symm ht)] at h2
    exact absurd (goStrLt_eq_of_not _ _ h1 h2) ht

/-- The non-strict group order is total. -/
theorem groupLe_total (a b : ErrorGroup) : GroupLe a b ∨ GroupLe b a := by
  unfold GroupLe
  by_cases h : groupLess b a = true
  · right
    exact groupLess_asymm h
  · left
    exact Bool.eq_false_iff.mpr h

/-- The non-strict group order is transitive. -/
theorem groupLe_trans {a b c : ErrorGroup} (h1 : GroupLe a b) (h2 : GroupLe b c) :
    GroupLe a c := by
  unfold GroupLe at h1 h2 ⊢
  by_cases hca : groupLess c a = true
  · by_cases hab : groupLess a b = true
    · have hcb := groupLess_trans hca hab
      rw [h2] at hcb
      cases hcb
    · have hab' : groupLess a b = false := Bool.eq_false_iff.mpr hab
      have hpair := groupLess_eq_of_not hab' h1
      have hcongr := groupLess_congr c hpair.1 hpair.2
      rw [hcongr] at hca
      rw [h2] at hca
      cases hca
  · exact Bool.eq_false_iff.mpr hca

/-- The sorted group list is pairwise ordered by the comparator. -/
theorem buildGroups_pairwise_le (errs : List Error) :
    (buildGroups errs).Pairwise GroupLe := by
  unfold buildGroups
  letI : IsTotal ErrorGroup GroupLe := ⟨groupLe_total⟩
  letI : IsTrans ErrorGroup GroupLe := ⟨fun _ _ _ h1 h2 => groupLe_trans h1 h2⟩
  exact List.sorted_insertionSort GroupLe (buildGroupsPre errs)

/-- Unfolding of the non-strict group order into the claim's shape. -/
theorem groupLe_unfold {g1 g2 : ErrorGroup} (h : GroupLe g1 g2) :
    goStrLt g2.Time g1.Time = false
      ∧ (g1.Time = g2.Time → goStrLt g2.Component g1.Component = false) := by
  unfold GroupLe groupLess at h
  by_cases ht : g2.Time = g1.Time
  · rw [if_neg (not_not_intro ht)] at h
    refine ⟨?_, fun _ => h⟩
    rw [ht]
    exact goStrLt_irrefl g1.Time
  · rw [if_pos ht] at h
    exact ⟨h, fun he => absurd he.symm ht⟩

/-- A digit `HH:MM` time string compares strictly below the `??:??`
placeholder. -/
theorem digit_lt_unknown {s : GoStr} (h : isDigitHHMM s = true) :
    goStrLt s unknownTime = true := by
  match s, h with
  | [d1, d2, c, d3, d4], h =>
    simp only [isDigitHHMM, isDigitChar, Bool.and_eq_true, decide_eq_true_eq] at h
    obtain ⟨⟨⟨⟨⟨h1a, h1b⟩, _⟩, _⟩, _⟩, _⟩ := h
    have hq : ('?').toNat = 63 := rfl
    simp only [unknownTime, goStrLt]
    rw [if_pos (by omega)]

/-- Claim C4: the group list built by `buildGroups` is sorted — for adjacent
groups the time of the first is at most the time of the second (by
byte-wise string comparison), ties are broken by component, and every group
with a digit `HH:MM` time precedes every group with the unresolvable
`??:??` placeholder. -/
theorem buildGroups_sorted (errs : List Error) :
    (∀ i, (h2 : i + 1 < (buildGroups errs).length) →
        goStrLt ((buildGroups errs)[i + 1].Time) ((buildGroups errs)[i].Time) = false
          ∧ ((buildGroups errs)[i].Time = (buildGroups errs)[i + 1].Time →
            goStrLt ((buildGroups errs)[i + 1].Component) ((buildGroups errs)[i].Component)
              = false))
      ∧ (∀ i j, (hi : i < (buildGroups errs).length) → (hj : j < (buildGroups errs).length) →
        (buildGroups errs)[i].Time = unknownTime →
        isDigitHHMM ((buildGroups errs)[j].Time) = true → j < i) := by
  have hpw := buildGroups_pairwise_le errs
  constructor
  · intro i h2
    have hle : GroupLe (buildGroups errs)[i] (buildGroups errs)[i + 1] :=
      List.pairwise_iff_getElem.mp hpw i (i + 1) (by omega) h2 (by omega)
    exact groupLe_unfold hle
  · intro i j hi hj hq hd
    rcases Nat.lt_trichotomy j i with h | h | h
    · exact h
    · subst h
      rw [hq] at hd
      exact absurd hd (by decide)
    · exfalso
      have hle : GroupLe (buildGroups errs)[i] (buildGroups errs)[j] :=
        List.pairwise_iff_getElem.mp hpw i j hi hj h
      have hne : (buildGroups errs)[j].Time ≠ unknownTime := by
        intro he
        rw [he] at hd
        exact absurd hd (by decide)
      have hlt := digit_lt_unknown hd
      unfold GroupLe groupLess at hle
      rw [hq] at hle
      rw [if_pos hne] at hle
      rw [hlt] at hle
      cases hle

/-- Witness for C4: the adjacent-order property at index zero of a concrete
two-group list. -/
theorem buildGroups_sorted_witness :
    0 + 1 < (buildGroups [sampleError1, sampleError2]).length
      ∧ goStrLt ((buildGroups [sampleError1, sampleError2]).get ⟨1, by decide⟩).Time
          ((buildGroups [sampleError1, sampleError2]).get ⟨0, by decide⟩).Time = false :=
  ⟨by decide, ((buildGroups_sorted [sampleError1, sampleError2]).1 0 (by decide)).1⟩

/-- The jump loop ignores every group whose time does not parse. -/
theorem jumpLoopAux_all_skip (target : Int) (gs : List ErrorGroup) :
    ∀ i bi bd, (∀ g ∈ gs, parseTimeToMinutes g.Time < 0) →
      jumpLoopAux target gs i bi bd = (bi, bd) := by
  induction gs with
  | nil => intro i bi bd _; rfl
  | cons g rest ih =>
    intro i bi bd hall
    have hg : parseTimeToMinutes g.Time < 0 := hall g (by simp)
    simp only [jumpLoopAux]
    rw [if_pos hg]
    exact ih _ _ _ (fun x hx => hall x (by simp [hx]))

/-- Claim C1, counterexample: on a state with an active message filter,
`applyFilters` leaves the message filter in place instead of resetting it
to its neutral empty value. -/
theorem applyFilters_keeps_message_filter :
    (applyFilters sampleModelMsg).messageFilter = ['x']
      ∧ ¬ (applyFilters sampleModelMsg).messageFilter = [] := by
  decide

/-- Claim C1 (amended): after `applyFilters`, the filtered set is exactly the
errors of the full set passing the level-equality and case-insensitive
component-substring predicates, groups are rebuilt from it, and the group
cursor, error cursor, group offset and error offset are reset to zero; the
message filter is left unchanged. -/
theorem applyFilters_spec (m : Model) :
    (applyFilters m).filteredErrors
        = m.allErrors.filter (fun e =>
            (m.levelFilter == [] || e.LogLevel == m.levelFilter)
              && (m.componentFilter == []
                || strContains (toLowerStr e.Component) (toLowerStr m.componentFilter)))
      ∧ (applyFilters m).groups = buildGroups ((applyFilters m).filteredErrors)
      ∧ (applyFilters m).groupCursor = 0 ∧ (applyFilters m).errorCursor = 0
      ∧ (applyFilters m).groupOffset = 0 ∧ (applyFilters m).errorOffset = 0
      ∧ (applyFilters m).messageFilter = m.messageFilter :=
  ⟨rfl, rfl, rfl, rfl, rfl, rfl, rfl⟩

/-- Claim C5: bucketing converts the stored UTC instant to the reference
timezone (8 hours behind UTC) before choosing the calendar date, so any
instant with hour before 08:00 UTC buckets into the previous calendar day;
in particular `2025-01-01 07:58:00` buckets into `2024-12-31`. -/
theorem bucketing_prev_day :
    (∀ (s : GoStr) (dt : GoDateTime), parseFullDateTime ' ' s = some dt → dt.hour < 8 →
        utcTimestampToPacificDate 8 s = fmtDateTriple (prevDate dt.year dt.month dt.day))
      ∧ utcTimestampToPacificDate 8 ("2025-01-01 07:58:00".data) = "2024-12-31".data := by
  constructor
  · intro s dt h hh
    have hs : ¬ s = [] := by
      intro e
      rw [e] at h
      exact Option.noConfusion ((rfl : parseFullDateTime ' ' ([] : GoStr) = none).symm.trans h)
    simp only [utcTimestampToPacificDate, if_neg hs, h, pacificDateOf]
    rw [if_neg (by omega)]
  · decide

/-- Witness for C5 at the concrete record of the claim. -/
theorem bucketing_prev_day_witness :
    parseFullDateTime ' ' ("2025-01-01 07:58:00".data) = some ⟨2025, 1, 1, 7, 58, 0⟩
      ∧ utcTimestampToPacificDate 8 ("2025-01-01 07:58:00".data)
        = fmtDateTriple (prevDate 2025 1 1) :=
  by
  have h : parseFullDateTime ' ' ("2025-01-01 07:58:00".data) = some ⟨2025, 1, 1, 7, 58, 0⟩ := rfl
  exact ⟨h, bucketing_prev_day.1 _ _ h (by decide)⟩

/-- Claim C8: when the target string does not parse as an `HH:MM` time,
`jumpToTime` is a no-op on the whole state (cursors and offsets included)
and raises no error. -/
theorem jumpToTime_invalid_noop (m : Model) (timeStr : GoStr)
    (h : parseTimeToMinutes timeStr < 0) :
    jumpToTime m timeStr = m := by
  by_cases hlen : m.groups.length = 0
  · simp [jumpToTime, hlen]
  · simp [jumpToTime, hlen, h]

/-- Witness for C8 at a concrete unparseable input. -/
theorem jumpToTime_invalid_noop_witness :
    parseTimeToMinutes ("noon".data) < 0
      ∧ jumpToTime sampleModel ("noon".data) = sampleModel :=
  ⟨by decide, jumpToTime_invalid_noop sampleModel _ (by decide)⟩

/-- Claim C9: on a non-empty group list with no resolvable time, a valid
jump target forces the group cursor to index zero (the initial best
candidate) and resets the error cursor and error offset. -/
theorem jumpToTime_all_unresolvable (m : Model) (timeStr : GoStr)
    (hne : m.groups ≠ [])
    (hall : ∀ g ∈ m.groups, parseTimeToMinutes g.Time < 0)
    (ht : 0 ≤ parseTimeToMinutes timeStr) :
    (jumpToTime m timeStr).groupCursor = 0 ∧ (jumpToTime m timeStr).errorCursor = 0
      ∧ (jumpToTime m timeStr).errorOffset = 0 := by
  have hlen : ¬ m.groups.length = 0 := by
    simpa [List.length_eq_zero] using hne
  have hlt : ¬ parseTimeToMinutes timeStr < 0 := by omega
  simp [jumpToTime, hne, if_neg hlen, if_neg hlt, updateContextPane,
    jumpLoopAux_all_skip _ _ _ _ _ hall]

/-- Witness for C9: both group times are the `??:??` placeholder, the group
cursor starts at one and is forced back to zero. -/
theorem jumpToTime_all_unresolvable_witness :
    unknownTimesState.groups ≠ []
      ∧ ((jumpToTime unknownTimesState ("08:00".data)).groupCursor = 0
        ∧ (jumpToTime unknownTimesState ("08:00".data)).errorCursor = 0
        ∧ (jumpToTime unknownTimesState ("08:00".data)).errorOffset = 0) :=
  ⟨by decide, jumpToTime_all_unresolvable unknownTimesState _ (by decide) (by decide) (by decide)⟩

/-- Claim C10: with the groups panel focused, Home, PageUp and PageDown all
clear the message filter and reset the error cursor and error offset,
unconditionally — in particular even when the group cursor is unchanged. -/
theorem groupPanel_nav_clears_message_filter (m : Model)
    (h : m.focusedPanel = Panel.groups) :
    ((navigateHome m).messageFilter = [] ∧ (navigateHome m).errorCursor = 0
        ∧ (navigateHome m).errorOffset = 0)
      ∧ ((navigatePageUp m).messageFilter = [] ∧ (navigatePageUp m).errorCursor = 0
        ∧ (navigatePageUp m).errorOffset = 0)
      ∧ ((navigatePageDown m).messageFilter = [] ∧ (navigatePageDown m).errorCursor = 0
        ∧ (navigatePageDown m).errorOffset = 0) := by
  simp [navigateHome, navigatePageUp, navigatePageDown, updateContextPane, h]

/-- The relocation step only moves cursors and offsets; filters, data and
groups are untouched. -/
theorem findAndSelectError_frame (m : Model) (errorID : Int) :
    (findAndSelectError m errorID).levelFilter = m.levelFilter
      ∧ (findAndSelectError m errorID).componentFilter = m.componentFilter
      ∧ (findAndSelectError m errorID).messageFilter = m.messageFilter
      ∧ (findAndSelectError m errorID).filteredErrors = m.filteredErrors
      ∧ (findAndSelectError m errorID).groups = m.groups
      ∧ (findAndSelectError m errorID).allErrors = m.allErrors := by
  simp only [findAndSelectError]
  rcases hf : findPosAux errorID m.groups 0 with _ | ⟨gi, ei⟩ <;> simp [hf]

/-- Projections of the filter-clearing step. -/
theorem clearBase_proj (m : Model) :
    (clearBase m).levelFilter = [] ∧ (clearBase m).componentFilter = []
      ∧ (clearBase m).messageFilter = [] ∧ (clearBase m).filteredErrors = m.allErrors
      ∧ (clearBase m).groups = buildGroups m.allErrors ∧ (clearBase m).allErrors = m.allErrors
      ∧ (clearBase m).groupCursor = m.groupCursor ∧ (clearBase m).errorCursor = m.errorCursor :=
  ⟨rfl, rfl, rfl, rfl, rfl, rfl, rfl, rfl⟩

/-- Case analysis of `clearFilters` according to the selected error. -/
theorem clearFilters_cases (m : Model) :
    (∀ e, selectedError m = some e → 0 < e.ID →
        clearFilters m = findAndSelectError (clearBase m) e.ID)
      ∧ (∀ e, selectedError m = some e → e.ID ≤ 0 → clearFilters m = clearBase m)
      ∧ (selectedError m = none → clearFilters m = clearBase m) := by
  refine ⟨?_, ?_, ?_⟩
  · intro e hsel hid
    obtain ⟨hc, hget⟩ := List.getElem?_eq_some_iff.mp hsel
    simp only [clearFilters, updateContextPane]
    rw [dif_pos hc]
    simp only [List.get_eq_getElem, hget]
    rw [if_pos hid]
  · intro e hsel hid
    obtain ⟨hc, hget⟩ := List.getElem?_eq_some_iff.mp hsel
    simp only [clearFilters, updateContextPane]
    rw [dif_pos hc]
    simp only [List.get_eq_getElem, hget]
    rw [if_neg (by omega)]
  · intro hsel
    have hc : ¬ m.errorCursor < (getFilteredGroupErrors m).length := by
      intro hc
      rw [selectedError, List.getElem?_eq_getElem hc] at hsel
      cases hsel
    simp only [clearFilters, updateContextPane]
    rw [dif_neg hc]
    rw [if_neg (by omega)]

/-- Claim C2, counterexample: (i) when the remembered id is absent from the
rebuilt groups, the cursors are left where they were instead of falling
back to position zero; (ii) in the clear-select-filter-clear round trip the
final selection is the first error of the filtered view (id 1), not the
error that was selected before the filter was applied (id 2), because
`applyFilters` resets the cursors before `clearFilters` records the
selected id. -/
theorem clearFilters_claim_fails :
    ((selectedError strayState).map (fun e => e.ID) = some 5
      ∧ (clearFilters strayState).groupCursor = 2
      ∧ ¬ (clearFilters strayState).groupCursor = 0)
    ∧ ((selectedError roundTripMid).map (fun e => e.ID) = some 2
      ∧ sampleError2 ∈ (applyFilters { roundTripMid with componentFilter := ['a'] }).filteredErrors
      ∧ (selectedError roundTripEnd).map (fun e => e.ID) = some 1
      ∧ ¬ (selectedError roundTripEnd).map (fun e => e.ID) = some 2) := by
  decide

/-- Claim C2 (amended): `clearFilters` removes all three filters and rebuilds
groups from the unfiltered set; when an error with positive id was selected
it moves the cursors to the first position of that id in the rebuilt
groups; when the id is not found, non-positive, or no error was selected,
the cursors are left unchanged rather than reset to zero.  Consequently the
clear-select-filter-clear round trip re-selects the error that is first in
the filtered view, which has the originally selected id only when that
error sorts first. -/
theorem clearFilters_spec (m : Model) :
    ((clearFilters m).levelFilter = [] ∧ (clearFilters m).componentFilter = []
      ∧ (clearFilters m).messageFilter = [] ∧ (clearFilters m).filteredErrors = m.allErrors
      ∧ (clearFilters m).groups = buildGroups m.allErrors
      ∧ (clearFilters m).allErrors = m.allErrors)
    ∧ (∀ e gi ei, selectedError m = some e → 0 < e.ID →
        findPosAux e.ID (buildGroups m.allErrors) 0 = some (gi, ei) →
        (clearFilters m).groupCursor = gi ∧ (clearFilters m).errorCursor = ei)
    ∧ (∀ e, selectedError m = some e → 0 < e.ID →
        findPosAux e.ID (buildGroups m.allErrors) 0 = none →
        (clearFilters m).groupCursor = m.groupCursor
          ∧ (clearFilters m).errorCursor = m.errorCursor)
    ∧ (∀ e, selectedError m = some e → e.ID ≤ 0 →
        (clearFilters m).groupCursor = m.groupCursor
          ∧ (clearFilters m).errorCursor = m.errorCursor)
    ∧ (selectedError m = none →
        (clearFilters m).groupCursor = m.groupCursor
          ∧ (clearFilters m).errorCursor = m.errorCursor) := by
  obtain ⟨hpos, hnonpos, hnone⟩ := clearFilters_cases m
  refine ⟨?_, ?_, ?_, ?_, ?_⟩
  · rcases hsel : selectedError m with _ | e
    · rw [hnone hsel]
      exact ⟨rfl, rfl, rfl, rfl, rfl, rfl⟩
    · by_cases hid : 0 < e.ID
      · rw [hpos e hsel hid]
        obtain ⟨f1, f2, f3, f4, f5, f6⟩ := findAndSelectError_frame (clearBase m) e.ID
        exact ⟨f1, f2, f3, f4, f5.trans rfl, f6⟩
      · rw [hnonpos e hsel (by omega)]
        exact ⟨rfl, rfl, rfl, rfl, rfl, rfl⟩
  · intro e gi ei hsel hid hfind
    rw [hpos e hsel hid]
    simp only [findAndSelectError]
    have hg : (clearBase m).groups = buildGroups m.allErrors := rfl
    rw [hg, hfind]
    exact ⟨rfl, rfl⟩
  · intro e hsel hid hfind
    rw [hpos e hsel hid]
    simp only [findAndSelectError]
    have hg : (clearBase m).groups = buildGroups m.allErrors := rfl
    rw [hg, hfind]
    exact ⟨rfl, rfl⟩
  · intro e hsel hid
    rw [hnonpos e hsel hid]
    exact ⟨rfl, rfl⟩
  · intro hsel
    rw [hnone hsel]
    exact ⟨rfl, rfl⟩

/-- Witness for C2 (amended) at a concrete state whose selected error (id 1)
is first in the rebuilt groups. -/
theorem clearFilters_spec_witness :
    (selectedError sampleModel = some sampleError1 ∧ 0 < sampleError1.ID
      ∧ findPosAux sampleError1.ID (buildGroups sampleModel.allErrors) 0 = some (0, 0))
    ∧ ((clearFilters sampleModel).groupCursor = 0
      ∧ (clearFilters sampleModel).errorCursor = 0) :=
  ⟨⟨by decide, by decide, by decide⟩,
   (clearFilters_spec sampleModel).2.1 sampleError1 0 0 (by decide) (by decide) (by decide)⟩

/-- The current group's filtered error list depends only on the groups, the
group cursor, and the message filter. -/
theorem getFGE_congr {m m2 : Model} (h1 : m2.groups = m.groups)
    (h2 : m2.groupCursor = m.groupCursor) (h3 : m2.messageFilter = m.messageFilter) :
    getFilteredGroupErrors m2 = getFilteredGroupErrors m := by
  simp only [getFilteredGroupErrors, h1, h2, h3]

/-- Updating only the error cursor and error offset leaves the current
group's filtered error list unchanged. -/
theorem getFGE_set_error_fields (m : Model) (c o : Nat) :
    getFilteredGroupErrors { m with errorCursor := c, errorOffset := o }
      = getFilteredGroupErrors m :=
  getFGE_congr rfl rfl rfl

/-- One Up step preserves the panel invariants. -/
theorem navInv_navigateUp (m : Model) (h : navInv m) : navInv (navigateUp m) := by
  have h2 := h
  simp only [navInv, panelInv, pageSizeOf] at h2
  obtain ⟨⟨g1, g2, g3⟩, e1, e2, e3⟩ := h2
  by_cases hp : m.focusedPanel = Panel.groups
  · by_cases hgc : 0 < m.groupCursor
    · simp only [navigateUp, updateContextPane, if_pos hp, if_pos hgc,
        navInv, panelInv, pageSizeOf]
      refine ⟨⟨?_, ?_, ?_⟩, ?_, ?_, ?_⟩ <;> (try split_ifs) <;> omega
    · have hid : navigateUp m = m := by
        simp [navigateUp, if_pos hp, if_neg hgc]
      rw [hid]; exact h
  · by_cases hec : 0 < m.errorCursor
    · simp only [navigateUp, updateContextPane, if_neg hp, if_pos hec,
        navInv, panelInv, pageSizeOf, getFGE_set_error_fields]
      refine ⟨⟨?_, ?_, ?_⟩, ?_, ?_, ?_⟩ <;> (try split_ifs) <;> omega
    · have hid : navigateUp m = m := by
        simp [navigateUp, if_neg hp, if_neg hec]
      rw [hid]; exact h

/-- One Down step preserves the panel invariants. -/
theorem navInv_navigateDown (m : Model) (h : navInv m) : navInv (navigateDown m) := by
  have h2 := h
  simp only [navInv, panelInv, pageSizeOf] at h2
  obtain ⟨⟨g1, g2, g3⟩, e1, e2, e3⟩ := h2
  by_cases hp : m.focusedPanel = Panel.groups
  · by_cases hgc : m.groupCursor < m.groups.length - 1
    · simp only [navigateDown, updateContextPane, if_pos hp, if_pos hgc,
        navInv, panelInv, pageSizeOf]
      refine ⟨⟨?_, ?_, ?_⟩, ?_, ?_, ?_⟩ <;> (try split_ifs) <;> omega
    · have hid : navigateDown m = m := by
        simp [navigateDown, if_pos hp, if_neg hgc]
      rw [hid]; exact h
  · by_cases hec : m.errorCursor < (getFilteredGroupErrors m).length - 1
    · simp only [navigateDown, updateContextPane, if_neg hp, if_pos hec,
        navInv, panelInv, pageSizeOf, getFGE_set_error_fields]
      refine ⟨⟨?_, ?_, ?_⟩, ?_, ?_, ?_⟩ <;> (try split_ifs) <;> omega
    · have hid : navigateDown m = m := by
        simp [navigateDown, if_neg hp, if_neg hec]
      rw [hid]; exact h

/-- One PageUp step preserves the panel invariants. -/
theorem navInv_navigatePageUp (m : Model) (h : navInv m) : navInv (navigatePageUp m) := by
  have h2 := h
  simp only [navInv, panelInv, pageSizeOf] at h2
  obtain ⟨⟨g1, g2, g3⟩, e1, e2, e3⟩ := h2
  by_cases hp : m.focusedPanel = Panel.groups
  · simp only [navigatePageUp, updateContextPane, if_pos hp, navInv, panelInv, pageSizeOf]
    obtain ⟨d1, d2⟩ := pageAlign_bounds (m.groupCursor - max (m.height - 10) 5)
      (max (m.height - 10) 5) (by omega)
    refine ⟨⟨?_, ?_, ?_⟩, ?_, ?_, ?_⟩ <;> omega
  · simp only [navigatePageUp, updateContextPane, if_neg hp, navInv, panelInv, pageSizeOf,
      getFGE_set_error_fields]
    obtain ⟨d1, d2⟩ := pageAlign_bounds (m.errorCursor - max (m.height - 10) 5)
      (max (m.height - 10) 5) (by omega)
    refine ⟨⟨?_, ?_, ?_⟩, ?_, ?_, ?_⟩ <;> omega

/-- One PageDown step preserves the panel invariants. -/
theorem navInv_navigatePageDown (m : Model) (h : navInv m) : navInv (navigatePageDown m) := by
  have h2 := h
  simp only [navInv, panelInv, pageSizeOf] at h2
  obtain ⟨⟨g1, g2, g3⟩, e1, e2, e3⟩ := h2
  by_cases hp : m.focusedPanel = Panel.groups
  · simp only [navigatePageDown, updateContextPane, if_pos hp, navInv, panelInv, pageSizeOf]
    by_cases hlen : m.groups.length ≤ m.groupCursor + max (m.height - 10) 5
    · simp only [if_pos hlen]
      obtain ⟨d1, d2⟩ := pageAlign_bounds (m.groups.length - 1)
        (max (m.height - 10) 5) (by omega)
      refine ⟨⟨?_, ?_, ?_⟩, ?_, ?_, ?_⟩ <;> omega
    · simp only [if_neg hlen]
      obtain ⟨d1, d2⟩ := pageAlign_bounds (m.groupCursor + max (m.height - 10) 5)
        (max (m.height - 10) 5) (by omega)
      refine ⟨⟨?_, ?_, ?_⟩, ?_, ?_, ?_⟩ <;> omega
  · simp only [navigatePageDown, updateContextPane, if_neg hp, navInv, panelInv, pageSizeOf,
      getFGE_set_error_fields]
    by_cases hlen : (getFilteredGroupErrors m).length
        ≤ m.errorCursor + max (m.height - 10) 5
    · simp only [if_pos hlen]
      obtain ⟨d1, d2⟩ := pageAlign_bounds ((getFilteredGroupErrors m).length - 1)
        (max (m.height - 10) 5) (by omega)
      refine ⟨⟨?_, ?_, ?_⟩, ?_, ?_, ?_⟩ <;> omega
    · simp only [if_neg hlen]
      obtain ⟨d1, d2⟩ := pageAlign_bounds (m.errorCursor + max (m.height - 10) 5)
        (max (m.height - 10) 5) (by omega)
      refine ⟨⟨?_, ?_, ?_⟩, ?_, ?_, ?_⟩ <;> omega

/-- One Home step preserves the panel invariants. -/
theorem navInv_navigateHome (m : Model) (h : navInv m) : navInv (navigateHome m) := by
  have h2 := h
  simp only [navInv, panelInv, pageSizeOf] at h2
  obtain ⟨⟨g1, g2, g3⟩, e1, e2, e3⟩ := h2
  by_cases hp : m.focusedPanel = Panel.groups
  · simp only [navigateHome, updateContextPane, if_pos hp, navInv, panelInv, pageSizeOf]
    refine ⟨⟨?_, ?_, ?_⟩, ?_, ?_, ?_⟩ <;> omega
  · simp only [navigateHome, updateContextPane, if_neg hp, navInv, panelInv, pageSizeOf,
      getFGE_set_error_fields]
    refine ⟨⟨?_, ?_, ?_⟩, ?_, ?_, ?_⟩ <;> omega

/-- One End step preserves the panel invariants. -/
theorem navInv_navigateEnd (m : Model) (h : navInv m) : navInv (navigateEnd m) := by
  have h2 := h
  simp only [navInv, panelInv, pageSizeOf] at h2
  obtain ⟨⟨g1, g2, g3⟩, e1, e2, e3⟩ := h2
  by_cases hp : m.focusedPanel = Panel.groups
  · simp only [navigateEnd, updateContextPane, if_pos hp, navInv, panelInv, pageSizeOf]
    refine ⟨⟨?_, ?_, ?_⟩, ?_, ?_, ?_⟩ <;> omega
  · simp only [navigateEnd, updateContextPane, if_neg hp, navInv, panelInv, pageSizeOf,
      getFGE_set_error_fields]
    refine ⟨⟨?_, ?_, ?_⟩, ?_, ?_, ?_⟩ <;> omega

/-- Any single navigation operation preserves the panel invariants. -/
theorem navInv_applyOp (op : NavOp) (m : Model) (h : navInv m) : navInv (applyOp op m) := by
  cases op with
  | up => exact navInv_navigateUp m h
  | down => exact navInv_navigateDown m h
  | pageUp => exact navInv_navigatePageUp m h
  | pageDown => exact navInv_navigatePageDown m h
  | home => exact navInv_navigateHome m h
  | toEnd => exact navInv_navigateEnd m h

/-- Claim C7, counterexample: from an arbitrary (invalid) starting state the
claimed bound fails — with one group and the group cursor stuck at five, a
Down step leaves the cursor at five, violating `cursor < max 1 len`. -/
theorem cursorInvariant_claim_fails :
    (applyOps [NavOp.down] badCursorState).groupCursor = 5
      ∧ (applyOps [NavOp.down] badCursorState).groups.length = 1
      ∧ ¬ (applyOps [NavOp.down] badCursorState).groupCursor
          < max 1 (applyOps [NavOp.down] badCursorState).groups.length := by
  decide

/-- Claim C7 (amended): from any starting state satisfying the cursor/offset
invariant of both panels (cursor below `max 1 len`, offset at most the
cursor, cursor inside the visible window), every finite sequence of Up,
Down, PageUp, PageDown, Home and End operations preserves the invariant. -/
theorem navInv_preserved (m : Model) (ops : List NavOp) (h : navInv m) :
    navInv (applyOps ops m) := by
  induction ops generalizing m with
  | nil => exact h
  | cons op rest ih => exact ih (applyOp op m) (navInv_applyOp op m h)

/-- Witness for C7 (amended) on a concrete valid state and operation list. -/
theorem navInv_preserved_witness :
    navInv sampleModel
      ∧ navInv (applyOps [NavOp.down, NavOp.toEnd, NavOp.pageUp] sampleModel) :=
  ⟨by decide, navInv_preserved sampleModel [NavOp.down, NavOp.toEnd, NavOp.pageUp] (by decide)⟩

/-- Difference bound: genuine times of day (below 24 × 60 minutes) are always
within the loop's initial best difference. -/
theorem goAbs_diff_lt (a b : Int) (ha1 : 0 ≤ a) (ha2 : a < 24 * 60)
    (hb1 : 0 ≤ b) (hb2 : b < 24 * 60) : goAbs (a - b) < 24 * 60 := by
  unfold goAbs
  split_ifs <;> omega

/-- Full characterisation of the scan loop of `jumpToTime`: the final best
difference never grows, bounds the difference of every parseable group, and
the final best index either is the initial one (when no group beats the
initial best difference) or points at the first group attaining the final
(minimal) difference. -/
theorem jumpLoopAux_spec (target : Int) :
    ∀ (gs : List ErrorGroup) (i0 bi : Nat) (bd : Int),
      (jumpLoopAux target gs i0 bi bd).2 ≤ bd
      ∧ (∀ (k : Nat) (g : ErrorGroup), gs[k]? = some g → 0 ≤ parseTimeToMinutes g.Time →
          (jumpLoopAux target gs i0 bi bd).2 ≤ goAbs (parseTimeToMinutes g.Time - target))
      ∧ (((jumpLoopAux target gs i0 bi bd).1 = bi ∧ (jumpLoopAux target gs i0 bi bd).2 = bd
          ∧ ∀ (k : Nat) (g : ErrorGroup), gs[k]? = some g → 0 ≤ parseTimeToMinutes g.Time →
              ¬ goAbs (parseTimeToMinutes g.Time - target) < bd)
        ∨ (∃ k g, gs[k]? = some g ∧ (jumpLoopAux target gs i0 bi bd).1 = i0 + k
            ∧ 0 ≤ parseTimeToMinutes g.Time
            ∧ (jumpLoopAux target gs i0 bi bd).2 = goAbs (parseTimeToMinutes g.Time - target)
            ∧ (jumpLoopAux target gs i0 bi bd).2 < bd
            ∧ ∀ (l : Nat) (g2 : ErrorGroup), l < k → gs[l]? = some g2 → 0 ≤ parseTimeToMinutes g2.Time →
                (jumpLoopAux target gs i0 bi bd).2
                  < goAbs (parseTimeToMinutes g2.Time - target))) := by
  intro gs
  induction gs with
  | nil =>
    intro i0 bi bd
    refine ⟨le_refl bd, ?_, Or.inl ⟨rfl, rfl, ?_⟩⟩
    · intro k g hk
      rw [List.getElem?_nil] at hk
      cases hk
    · intro k g hk
      rw [List.getElem?_nil] at hk
      cases hk
  | cons g rest ih =>
    intro i0 bi bd
    by_cases hneg : parseTimeToMinutes g.Time < 0
    · have hrw : jumpLoopAux target (g :: rest) i0 bi bd
          = jumpLoopAux target rest (i0 + 1) bi bd := by
        simp only [jumpLoopAux]
        rw [if_pos hneg]
      rw [hrw]
      obtain ⟨ih1, ih2, ih3⟩ := ih (i0 + 1) bi bd
      refine ⟨ih1, ?_, ?_⟩
      · intro k gx hk hp
        cases k with
        | zero =>
          rw [List.getElem?_cons_zero] at hk
          injection hk with hk
          subst hk
          omega
        | succ k =>
          rw [List.getElem?_cons_succ] at hk
          exact ih2 k gx hk hp
      · rcases ih3 with ⟨e1, e2, e3⟩ | ⟨k, gx, hk, hidx, hp, heq, hlt, hfirst⟩
        · refine Or.inl ⟨e1, e2, ?_⟩
          intro k gx hk hp
          cases k with
          | zero =>
            rw [List.getElem?_cons_zero] at hk
            injection hk with hk
            subst hk
            omega
          | succ k =>
            rw [List.getElem?_cons_succ] at hk
            exact e3 k gx hk hp
        · refine Or.inr ⟨k + 1, gx, ?_, ?_, hp, heq, hlt, ?_⟩
          · rw [List.getElem?_cons_succ]
            exact hk
          · rw [hidx]
            omega
          · intro l g2 hl hk2 hp2
            cases l with
            | zero =>
              rw [List.getElem?_cons_zero] at hk2
              injection hk2 with hk2
              subst hk2
              omega
            | succ l =>
              rw [List.getElem?_cons_succ] at hk2
              exact hfirst l g2 (by omega) hk2 hp2
    · by_cases hdlt : goAbs (parseTimeToMinutes g.Time - target) < bd
      · have hrw : jumpLoopAux target (g :: rest) i0 bi bd
            = jumpLoopAux target rest (i0 + 1) i0
                (goAbs (parseTimeToMinutes g.Time - target)) := by
          simp only [jumpLoopAux]
          rw [if_neg hneg, if_pos hdlt]
        rw [hrw]
        obtain ⟨ih1, ih2, ih3⟩ :=
          ih (i0 + 1) i0 (goAbs (parseTimeToMinutes g.Time - target))
        refine ⟨by omega, ?_, ?_⟩
        · intro k gx hk hp
          cases k with
          | zero =>
            rw [List.getElem?_cons_zero] at hk
            injection hk with hk
            subst hk
            exact ih1
          | succ k =>
            rw [List.getElem?_cons_succ] at hk
            exact ih2 k gx hk hp
        · rcases ih3 with ⟨e1, e2, e3⟩ | ⟨k, gx, hk, hidx, hp, heq, hlt, hfirst⟩
          · refine Or.inr ⟨0, g, List.getElem?_cons_zero, ?_, by omega, e2, ?_, ?_⟩
            · rw [e1]
              omega
            · rw [e2]
              exact hdlt
            · intro l g2 hl
              omega
          · refine Or.inr ⟨k + 1, gx, ?_, ?_, hp, heq, by omega, ?_⟩
            · rw [List.getElem?_cons_succ]
              exact hk
            · rw [hidx]
              omega
            · intro l g2 hl hk2 hp2
              cases l with
              | zero =>
                rw [List.getElem?_cons_zero] at hk2
                injection hk2 with hk2
                subst hk2
                omega
              | succ l =>
                rw [List.getElem?_cons_succ] at hk2
                exact hfirst l g2 (by omega) hk2 hp2
      · have hrw : jumpLoopAux target (g :: rest) i0 bi bd
            = jumpLoopAux target rest (i0 + 1) bi bd := by
          simp only [jumpLoopAux]
          rw [if_neg hneg, if_neg hdlt]
        rw [hrw]
        obtain ⟨ih1, ih2, ih3⟩ := ih (i0 + 1) bi bd
        refine ⟨ih1, ?_, ?_⟩
        · intro k gx hk hp
          cases k with
          | zero =>
            rw [List.getElem?_cons_zero] at hk
            injection hk with hk
            subst hk
            omega
          | succ k =>
            rw [List.getElem?_cons_succ] at hk
            exact ih2 k gx hk hp
        · rcases ih3 with ⟨e1, e2, e3⟩ | ⟨k, gx, hk, hidx, hp, heq, hlt, hfirst⟩
          · refine Or.inl ⟨e1, e2, ?_⟩
            intro k gx hk hp
            cases k with
            | zero =>
              rw [List.getElem?_cons_zero] at hk
              injection hk with hk
              subst hk
              exact hdlt
            | succ k =>
              rw [List.getElem?_cons_succ] at hk
              exact e3 k gx hk hp
          · refine Or.inr ⟨k + 1, gx, ?_, ?_, hp, heq, hlt, ?_⟩
            · rw [List.getElem?_cons_succ]
              exact hk
            · rw [hidx]
              omega
            · intro l g2 hl hk2 hp2
              cases l with
              | zero =>
                rw [List.getElem?_cons_zero] at hk2
                injection hk2 with hk2
                subst hk2
                omega
              | succ l =>
                rw [List.getElem?_cons_succ] at hk2
                exact hfirst l g2 (by omega) hk2 hp2

/-- Claim C6, counterexample: with a first group of unresolvable time and a
second group whose time parses (to 6039 minutes, an out-of-range value the
claim's wording still counts as resolvable), a valid target selects group
zero — the unresolvable one — because 6039 minutes differs from the target
by more than the loop's initial 24 × 60 bound, contradicting the claimed
minimum-difference selection (which would pick index one). -/
theorem jumpToTime_nearest_claim_fails :
    parseTimeToMinutes ("00:00".data) = 0
      ∧ outOfRangeState.groups.length = 2
      ∧ (outOfRangeState.groups[0]?).map (fun g => g.Time) = some unknownTime
      ∧ parseTimeToMinutes unknownTime < 0
      ∧ (outOfRangeState.groups[1]?).map (fun g => g.Time) = some ("99:99".data)
      ∧ 0 ≤ parseTimeToMinutes ("99:99".data)
      ∧ (jumpToTime outOfRangeState ("00:00".data)).groupCursor = 0 := by
  decide

/-- Claim C6 (amended): when the target and every resolvable group time parse
to genuine minutes-since-midnight values (below 24 × 60), `jumpToTime`
selects a resolvable group of minimal absolute difference to the target,
the first such group in group order (earlier ties win), skipping
unresolvable groups, and resets the error cursor and error offset; group
times parsing to out-of-range minute values are skipped like unresolvable
ones, which the original claim did not allow for. -/
theorem jumpToTime_nearest (m : Model) (timeStr : GoStr) (tmin : Int)
    (hne : m.groups ≠ [])
    (ht : parseTimeToMinutes timeStr = tmin) (ht0 : 0 ≤ tmin) (ht1 : tmin < 24 * 60)
    (hrange : ∀ g ∈ m.groups, 0 ≤ parseTimeToMinutes g.Time →
      parseTimeToMinutes g.Time < 24 * 60)
    (hex : ∃ g ∈ m.groups, 0 ≤ parseTimeToMinutes g.Time) :
    ∃ gbest, m.groups[(jumpToTime m timeStr).groupCursor]? = some gbest
      ∧ 0 ≤ parseTimeToMinutes gbest.Time
      ∧ (∀ g ∈ m.groups, 0 ≤ parseTimeToMinutes g.Time →
          goAbs (parseTimeToMinutes gbest.Time - tmin)
            ≤ goAbs (parseTimeToMinutes g.Time - tmin))
      ∧ (∀ (l : Nat) (g2 : ErrorGroup), l < (jumpToTime m timeStr).groupCursor → m.groups[l]? = some g2 →
          0 ≤ parseTimeToMinutes g2.Time →
          goAbs (parseTimeToMinutes gbest.Time - tmin)
            < goAbs (parseTimeToMinutes g2.Time - tmin))
      ∧ (jumpToTime m timeStr).errorCursor = 0
      ∧ (jumpToTime m timeStr).errorOffset = 0 := by
  have hlen : ¬ m.groups.length = 0 := by
    simpa [List.length_eq_zero] using hne
  have hneg : ¬ parseTimeToMinutes timeStr < 0 := by omega
  have hneg2 : ¬ tmin < 0 := by omega
  have hcur : (jumpToTime m timeStr).groupCursor
      = (jumpLoopAux tmin m.groups 0 0 (24 * 60)).1 := by
    simp [jumpToTime, hne, if_neg hlen, if_neg hneg, if_neg hneg2, updateContextPane, ht]
  have herr : (jumpToTime m timeStr).errorCursor = 0
      ∧ (jumpToTime m timeStr).errorOffset = 0 := by
    constructor <;>
      simp [jumpToTime, hne, if_neg hlen, if_neg hneg, if_neg hneg2, updateContextPane, ht]
  obtain ⟨hs1, hs2, hs3⟩ := jumpLoopAux_spec tmin m.groups 0 0 (24 * 60)
  rcases hs3 with ⟨_, _, hnone⟩ | ⟨k, gbest, hk, hidx, hp, heq, _, hfirst⟩
  · exfalso
    obtain ⟨gw, hgw, hpw⟩ := hex
    obtain ⟨kw, hkw⟩ := List.mem_iff_getElem?.mp hgw
    have hw2 := hrange gw hgw hpw
    exact hnone kw gw hkw hpw (goAbs_diff_lt _ _ hpw hw2 ht0 ht1)
  · refine ⟨gbest, ?_, hp, ?_, ?_, herr.1, herr.2⟩
    · rw [hcur, hidx, Nat.zero_add]
      exact hk
    · intro g hg hpg
      obtain ⟨kg, hkg⟩ := List.mem_iff_getElem?.mp hg
      have := hs2 kg g hkg hpg
      rw [heq] at this
      exact this
    · intro l g2 hl hk2 hp2
      rw [hcur, hidx, Nat.zero_add] at hl
      have := hfirst l g2 hl hk2 hp2
      rw [heq] at this
      exact this

/-- Witness for C6 (amended) at the claim's own example: times 07:50 and
08:05, target 08:00, the nearer group at index one is selected. -/
theorem jumpToTime_nearest_witness :
    (jumpSampleState.groups ≠ [] ∧ parseTimeToMinutes ("08:00".data) = 480
      ∧ (jumpToTime jumpSampleState ("08:00".data)).groupCursor = 1)
      ∧ ∃ gbest, jumpSampleState.groups[(jumpToTime jumpSampleState
            ("08:00".data)).groupCursor]? = some gbest
        ∧ 0 ≤ parseTimeToMinutes gbest.Time
        ∧ (∀ g ∈ jumpSampleState.groups, 0 ≤ parseTimeToMinutes g.Time →
            goAbs (parseTimeToMinutes gbest.Time - 480)
              ≤ goAbs (parseTimeToMinutes g.Time - 480))
        ∧ (∀ (l : Nat) (g2 : ErrorGroup), l < (jumpToTime jumpSampleState ("08:00".data)).groupCursor →
            jumpSampleState.groups[l]? = some g2 →
            0 ≤ parseTimeToMinutes g2.Time →
            goAbs (parseTimeToMinutes gbest.Time - 480)
              < goAbs (parseTimeToMinutes g2.Time - 480))
        ∧ (jumpToTime jumpSampleState ("08:00".data)).errorCursor = 0
        ∧ (jumpToTime jumpSampleState ("08:00".data)).errorOffset = 0 :=
  ⟨⟨by decide, by decide, by decide⟩,
   jumpToTime_nearest jumpSampleState ("08:00".data) 480 (by decide) (by decide)
     (by decide) (by decide) (by decide) (by decide)⟩

/-- Witness for C10: Home on a state whose group cursor is already zero and
whose message filter is active. -/
theorem groupPanel_nav_clears_message_filter_witness :
    (sampleModelMsg.focusedPanel = Panel.groups ∧ sampleModelMsg.groupCursor = 0
        ∧ sampleModelMsg.messageFilter = ['x'])
      ∧ (((navigateHome sampleModelMsg).messageFilter = []
          ∧ (navigateHome sampleModelMsg).errorCursor = 0
          ∧ (navigateHome sampleModelMsg).errorOffset = 0)
        ∧ ((navigatePageUp sampleModelMsg).messageFilter = []
          ∧ (navigatePageUp sampleModelMsg).errorCursor = 0
          ∧ (navigatePageUp sampleModelMsg).errorOffset = 0)
        ∧ ((navigatePageDown sampleModelMsg).messageFilter = []
          ∧ (navigatePageDown sampleModelMsg).errorCursor = 0
          ∧ (navigatePageDown sampleModelMsg).errorOffset = 0)) :=
  ⟨by decide, groupPanel_nav_clears_message_filter sampleModelMsg (by decide)⟩

end DaqBrowser
